import Mathlib

/-!
A verification development for the zero kernel (pre-emptive multitasking
kernel for AVR).  The definitions below are a shallow embedding of the
relevant source functions:

* `src/helpers/pagemanager.cpp` — the paged allocator search
  (`PageManager::findFreePages` and its two search strategies);
* `src/core/thread.cpp` — the per-thread signal bookkeeping
  (`Thread::wait`, `Thread::signal`, `Thread::allocateSignal`,
  `Thread::tryAllocateSignal`, `Thread::freeSignals`,
  `Thread::clearSignals`, the signal part of `Thread::reanimate`),
  the two timer ISRs, `selectNextThread`, and `forbid`/`permit`.

Machine integers are embedded as `Nat` with the bitwise operations
`&&&`, `|||`, and `landNot x m` standing for the C `x & ~m` (the
result of `&` with a complement inside a fixed-width unsigned type).
Signal bit-fields never exceed the platform word, so the embedding is
exact.  A C function returning `-1` as a "not found" sentinel is
embedded with `Option Nat`, `none` standing for `-1`.

The configuration header that defines the signal constants and the
intrusive-list classes is not part of the sources at hand; those
definitions are modelled from the spec and are marked as such.
-/

set_option linter.unusedVariables false

namespace ZeroOS

/-! ## Paged allocator (src/helpers/pagemanager.cpp) -/

/-- `memory::SearchStrategy` from pagemanager.h (TopDown = 0, BottomUp = 1). -/
inductive SearchStrategy
  | topDown
  | bottomUp
deriving DecidableEq, Repr

/-- The page bitmap `_memoryMap` is embedded as a `List Bool`, one entry
per page, `true` = used (bit set), `false` = free.
`isPageAvailable` is `!BF_TST(_memoryMap, pageNumber)`;
out-of-range indices (never queried by the search loop) default to used. -/
def isPageAvailable (mm : List Bool) (pageNumber : Nat) : Bool :=
  !(mm.getD pageNumber true)

/-- `getPageForSearchStep_TopDown`: `totalPages - (step + 1)`. -/
def getPageForSearchStep_TopDown (step totalPages : Nat) : Nat :=
  totalPages - (step + 1)

/-- `getPageForSearchStep_BottomUp`: `step`. -/
def getPageForSearchStep_BottomUp (step totalPages : Nat) : Nat :=
  step

/-- The `_strategies` dispatch table. -/
def stratPage : SearchStrategy → Nat → Nat → Nat
  | .topDown, step, totalPages => getPageForSearchStep_TopDown step totalPages
  | .bottomUp, step, totalPages => getPageForSearchStep_BottomUp step totalPages

/-- The loop state of `PageManager::findFreePages`:
`startPage` (`none` standing for `(uint16_t) -1`) and `pageCount`,
with `broke` marking that one of the two `break` statements ran. -/
inductive FfpState
  | running (startPage : Option Nat) (pageCount : Nat)
  | broke (startPage : Option Nat) (pageCount : Nat)
deriving DecidableEq, Repr

/-- One iteration of the `findFreePages` search loop, `curPage` being the
page the strategy produced for the current step.  The `65535` test embeds
`curPage == (uint16_t) -1` (dead for both in-repo strategies when the
page count is at most 32768, the range in which `int16_t` holds every
page number). -/
def ffpBody (mm : List Bool) (numPagesRequired : Nat) :
    FfpState → Nat → FfpState
  | .broke startPage pageCount, _ => .broke startPage pageCount
  | .running startPage pageCount, curPage =>
    if curPage = 65535 then
      .broke startPage pageCount
    else if isPageAvailable mm curPage then
      let pageCount' := pageCount + 1
      let sp := startPage.getD curPage
      if pageCount' = numPagesRequired then
        .broke (some (min sp curPage)) pageCount'
      else
        .running (some sp) pageCount'
    else
      .running none 0

/-- The post-loop check of `findFreePages`:
`if (pageCount < numPagesRequired) return -1; return startPage;`. -/
def ffpFinish (numPagesRequired : Nat) : FfpState → Option Nat
  | .running startPage pageCount =>
      if pageCount < numPagesRequired then none else startPage
  | .broke startPage pageCount =>
      if pageCount < numPagesRequired then none else startPage

/-- `PageManager::findFreePages(numPagesRequired, strat)`: a single pass
of steps `0 .. PAGE_COUNT-1`, each mapped to a page by the strategy. -/
def findFreePages (mm : List Bool) (numPagesRequired : Nat)
    (strat : SearchStrategy) : Option Nat :=
  ffpFinish numPagesRequired
    (((List.range mm.length).map (fun s => stratPage strat s mm.length)).foldl
      (ffpBody mm numPagesRequired) (.running none 0))

/-- Specification-side predicate: pages `b, b+1, …, b+n-1` all exist and
are free ("a run of n contiguous free pages" at base `b`). -/
def runAt (mm : List Bool) (b n : Nat) : Prop :=
  b + n ≤ mm.length ∧ ∀ i, i < n → isPageAvailable mm (b + i) = true

instance (mm : List Bool) (b n : Nat) : Decidable (runAt mm b n) :=
  inferInstanceAs (Decidable (_ ∧ _))

/-- The prefix of the `findFreePages` search after `s` steps of the
BottomUp strategy (proof scaffolding for the loop induction). -/
def buScan (mm : List Bool) (numPagesRequired s : Nat) : FfpState :=
  ((List.range s).map (fun j => stratPage .bottomUp j mm.length)).foldl
    (ffpBody mm numPagesRequired) (.running none 0)

/-- The prefix of the `findFreePages` search after `s` steps of the
TopDown strategy. -/
def tdScan (mm : List Bool) (numPagesRequired s : Nat) : FfpState :=
  ((List.range s).map (fun j => stratPage .topDown j mm.length)).foldl
    (ffpBody mm numPagesRequired) (.running none 0)

/-! ## Signal constants

Modelled from the spec: the configuration header defining the reserved
signal bits is not among the sources; per the spec, bit 0 of each
thread's signal space is `START`, bit 1 `STOP`, bit 2 `TIMEOUT`, and
`NUM_RESERVED_SIGS` counts these reserved bits. -/

/-- Modelled from the spec: reserved signal `START`, bit 0. -/
def SIG_START : Nat := 1

/-- Modelled from the spec: reserved signal `STOP`, bit 1. -/
def SIG_STOP : Nat := 2

/-- Modelled from the spec: reserved signal `TIMEOUT`, bit 2. -/
def SIG_TIMEOUT : Nat := 4

/-- Modelled from the spec: the mask of all reserved signals. -/
def SIG_ALL_RESERVED : Nat := 7

/-- Modelled from the spec: the number of reserved signal bits. -/
def NUM_RESERVED_SIGS : Nat := 3

/-! ## Thread control block (signal/scheduling fields of `Thread`) -/

/-- The fields of a `Thread` that the signal primitive and the scheduler
read and write: `_allocatedSignals`, `_waitingSignals`,
`_currentSignals`, `_timeoutOffset` and `_ticksRemaining`. -/
structure TCB where
  allocatedSignals : Nat
  waitingSignals : Nat
  currentSignals : Nat
  timeoutOffset : Nat
  ticksRemaining : Nat
deriving DecidableEq, Repr

/-- `Thread::getActiveSignals()`: `_currentSignals & _waitingSignals`. -/
def getActiveSignals (t : TCB) : Nat :=
  t.currentSignals &&& t.waitingSignals

/-- `Thread::tryAllocateSignal(signalNumber)`; `signalBits` is
`SIGNAL_BITS = sizeof(SignalBitField) * 8` (the platform word width,
kept as a parameter).  Returns the C `bool` and the updated thread. -/
def tryAllocateSignal (signalBits : Nat) (t : TCB) (signalNumber : Nat) :
    Bool × TCB :=
  if signalBits ≤ signalNumber then (false, t)
  else
    let m := 1 <<< signalNumber
    if t.allocatedSignals &&& m = 0 then
      (true, { t with allocatedSignals := t.allocatedSignals ||| m })
    else (false, t)

/-- The auto-allocation loop of `Thread::allocateSignal`:
`for (i = NUM_RESERVED_SIGS; i < SIGNAL_BITS; i++)`. The fuel equals the
number of remaining iterations, so it never runs out before `i` reaches
`signalBits`. -/
def allocateSignalLoop (signalBits : Nat) : TCB → Nat → Nat → Nat × TCB
  | t, _, 0 => (0, t)
  | t, i, fuel + 1 =>
    if signalBits ≤ i then (0, t)
    else
      match tryAllocateSignal signalBits t i with
      | (true, t') => (1 <<< i, t')
      | (false, _) => allocateSignalLoop signalBits t (i + 1) fuel

/-- `Thread::allocateSignal(reqdSignalNumber)`: a specific in-range
number is tried directly; any out-of-range number (the documented `-1`
convention) starts the auto-allocation scan after the reserved bits.
Returns the `SignalBitField` result and the updated thread. -/
def allocateSignal (signalBits : Nat) (t : TCB) (reqdSignalNumber : Nat) :
    Nat × TCB :=
  if reqdSignalNumber < signalBits then
    match tryAllocateSignal signalBits t reqdSignalNumber with
    | (true, t') => (1 <<< reqdSignalNumber, t')
    | (false, _) => (0, t)
  else
    allocateSignalLoop signalBits t NUM_RESERVED_SIGS
      (signalBits - NUM_RESERVED_SIGS)

/-- The C expression `x & ~m` on an unsigned bit-field: clearing in `x`
the bits of `m`.  Written as `x ^^^ (x &&& m)` — which equals
`Nat.ldiff x m` (theorem `landNot_eq_ldiff` below), i.e. clears exactly
the common bits — because this form evaluates by kernel reduction. -/
def landNot (x m : Nat) : Nat := x ^^^ (x &&& m)

/-- `Thread::freeSignals(signals)`: reserved bits cannot be freed;
`x &= ~sigsTofree` is embedded as `landNot x sigsTofree`. -/
def freeSignals (t : TCB) (signals : Nat) : TCB :=
  let sigsTofree := landNot signals SIG_ALL_RESERVED
  { t with
    allocatedSignals := landNot t.allocatedSignals sigsTofree
    waitingSignals := landNot t.waitingSignals sigsTofree
    currentSignals := landNot t.currentSignals sigsTofree }

/-- `Thread::clearSignals(sigs)`: `_currentSignals &= ~sigs`. -/
def clearSignals (t : TCB) (sigs : Nat) : TCB :=
  { t with currentSignals := landNot t.currentSignals sigs }

/-- The signal/timeout bookkeeping of `Thread::reanimate` ("signal
defaults" and "sleeping time"): `_allocatedSignals = SIG_ALL_RESERVED`,
`_waitingSignals = 0`, `_currentSignals = 0`, `_timeoutOffset = 0`.
The stack-prelude writes of `reanimate` are raw memory layout and are
outside this embedding. -/
def reanimate (t : TCB) : TCB :=
  { t with
    allocatedSignals := SIG_ALL_RESERVED
    waitingSignals := 0
    currentSignals := 0
    timeoutOffset := 0 }

/-- How a call to `Thread::wait` leaves the calling thread: it either
returns a `SignalBitField` without blocking (`ret`), or it calls
`yield()` and the thread suspends (`blocked`). -/
inductive WaitOutcome
  | ret (rc : Nat)
  | blocked
deriving DecidableEq, Repr

/-- After the hidden auto-stop of `Thread::wait` (the inner
`wait(SIG_START)`) finishes, the outer call returns its own `rc`; if
the inner wait blocks, the thread is suspended there. -/
def waitAfterStop : TCB × WaitOutcome → Nat → TCB × WaitOutcome
  | (t5, .ret _), rc => (t5, .ret rc)
  | (t5, .blocked), _ => (t5, .blocked)

/-- `Thread::wait(sigs, timeout)`.  `isCurrent` embeds the
`_currentThread != this` test.  Blocking is terminal in this embedding
(there is no incoming-signal environment), so the states and results
after a resumption are not modelled.  The hidden auto-stop re-enters
`wait(SIG_START)`; the fuel bounds that recursion (the inner call waits
on `SIG_START` only, so its own auto-stop branch cannot fire, and fuel 2
is never exhausted). -/
def waitGo (isCurrent : Bool) : Nat → TCB → Nat → Nat → TCB × WaitOutcome
  | 0, t, _, _ => (t, .blocked)
  | fuel + 1, t, sigs, timeout =>
    if !isCurrent then (t, .ret 0)
    else
      let w1 := sigs
      let w2 := if sigs &&& SIG_START = 0 then w1 ||| SIG_STOP else w1
      let t1 := { t with timeoutOffset := timeout }
      let w3 := if timeout ≠ 0 then w2 ||| SIG_TIMEOUT
                else landNot w2 SIG_TIMEOUT
      let w4 := w3 &&& t1.allocatedSignals
      let t2 := { t1 with waitingSignals := w4 }
      if w4 = 0 then (t2, .ret 0)
      else
        let rc := getActiveSignals t2
        if rc = 0 then (t2, .blocked)
        else
          let t3 := clearSignals t2 rc
          let t4 := { t3 with timeoutOffset := 0 }
          if rc &&& SIG_STOP ≠ 0 then
            waitAfterStop (waitGo isCurrent fuel t4 SIG_START 0) rc
          else (t4, .ret rc)

/-- `Thread::wait(sigs, timeout)` (see `waitGo`). -/
def wait (isCurrent : Bool) (t : TCB) (sigs timeout : Nat) :
    TCB × WaitOutcome :=
  waitGo isCurrent 2 t sigs timeout

/-! ## Kernel state and the scheduler (src/core/thread.cpp) -/

/-- The scheduler globals: the thread table (ids to control blocks), the
two ready lists, the timeout list (ids; each node's delta lives in its
own `timeoutOffset`, as in the source), `_currentThread`, the idle
thread's id, `_switchingEnabled` and `_milliseconds`. -/
structure Kernel where
  threads : Nat → TCB
  active : List Nat
  expired : List Nat
  timeoutList : List Nat
  currentThread : Option Nat
  idleId : Nat
  switchingEnabled : Bool
  milliseconds : Nat

/-- Pointwise update of the thread table. -/
def updThr (f : Nat → TCB) (i : Nat) (t : TCB) : Nat → TCB :=
  fun j => if j = i then t else f j

/-- `selectNextThread()`: head of the active list; if empty the lists
swap (`SWAP_LISTS`, a persistent change) and the new active head runs;
if still empty, the idle thread runs.  Returns the chosen id and the
(active, expired) lists after the possible swap. -/
def selectNextThread (active expired : List Nat) (idleId : Nat) :
    Nat × List Nat × List Nat :=
  match active.head? with
  | some h => (h, active, expired)
  | none =>
    match expired.head? with
    | some h => (h, expired, active)
    | none => (idleId, expired, active)

/-- Modelled from the spec: `OffsetList::remove` (list.h is not among
the sources).  "On remove, add the removed node's offset into the
successor's offset so that subsequent absolute expirations are
preserved."  Removes the first occurrence of `tid`. -/
def offsetRemoveGo (threads : Nat → TCB) (tid : Nat) :
    List Nat → List Nat × (Nat → TCB)
  | [] => ([], threads)
  | x :: rest =>
    if x = tid then
      match rest with
      | [] => (rest, threads)
      | s :: _ =>
        (rest, updThr threads s
          { threads s with
            timeoutOffset :=
              (threads s).timeoutOffset + (threads tid).timeoutOffset })
    else
      let p := offsetRemoveGo threads tid rest
      (x :: p.1, p.2)

/-- `Thread::signal(sigs)` on thread `tid`.  Plain-list `remove` and
`prepend` on the active ready list are `List.erase` and cons. -/
def signalThread (k : Kernel) (tid : Nat) (sigs : Nat) : Kernel :=
  let t := k.threads tid
  let alreadySignalled := getActiveSignals t ≠ 0
  let t' := { t with
    currentSignals := t.currentSignals ||| (sigs &&& t.allocatedSignals) }
  let k1 := { k with threads := updThr k.threads tid t' }
  if k.currentThread ≠ some tid ∧ ¬alreadySignalled ∧
     getActiveSignals t' ≠ 0 then
    let k2 :=
      if t'.timeoutOffset ≠ 0 then
        let p := offsetRemoveGo k1.threads tid k1.timeoutList
        { k1 with
          timeoutList := p.1
          threads := updThr p.2 tid { p.2 tid with timeoutOffset := 0 } }
      else k1
    { k2 with active := tid :: k2.active.erase tid }
  else k1

/-- The `while (curSleeper and !curSleeper->_timeoutOffset)` loop of
`ISR(TIMER0_COMPA_vect)`.  Each iteration removes the head, so the list
shrinks by one per iteration and a fuel equal to the list length is
never exhausted before the loop condition fails. -/
def isrADrain : Nat → Kernel → Kernel
  | 0, k => k
  | fuel + 1, k =>
    match k.timeoutList.head? with
    | none => k
    | some h =>
      if (k.threads h).timeoutOffset = 0 then
        let p := offsetRemoveGo k.threads h k.timeoutList
        let k' := { k with timeoutList := p.1, threads := p.2 }
        isrADrain fuel (signalThread k' h SIG_TIMEOUT)
      else k

/-- `ISR(TIMER0_COMPA_vect)`: millisecond tick and timeout controller.
`_milliseconds` is a `uint32_t`, hence the `% 2^32`. -/
def isrTimerA (k : Kernel) : Kernel :=
  let k1 := { k with milliseconds := (k.milliseconds + 1) % 4294967296 }
  match k1.timeoutList.head? with
  | none => k1
  | some h =>
    let k2 :=
      if (k1.threads h).timeoutOffset ≠ 0 then
        { k1 with
          threads := updThr k1.threads h
            { k1.threads h with
              timeoutOffset := (k1.threads h).timeoutOffset - 1 } }
      else k1
    isrADrain k2.timeoutList.length k2

/-- `ISR(TIMER0_COMPB_vect)`: the pre-emptive context switch.
`quantum` is the configuration constant `QUANTUM_TICKS`.  The returned
`Bool` records whether the full context-switch path ran (extended
registers saved and another context restored) as opposed to the
`goto exit` path. -/
def isrTimerB (quantum : Nat) (k : Kernel) : Kernel × Bool :=
  match k.currentThread with
  | none =>
    let nxt := selectNextThread k.active k.expired k.idleId
    let th :=
      if (k.threads nxt.1).ticksRemaining = 0 then
        updThr k.threads nxt.1
          { k.threads nxt.1 with ticksRemaining := quantum }
      else k.threads
    ({ k with
        threads := th
        active := nxt.2.1
        expired := nxt.2.2
        currentThread := some nxt.1 }, true)
  | some c =>
    let t := k.threads c
    let th1 :=
      if t.ticksRemaining ≠ 0 then
        updThr k.threads c { t with ticksRemaining := t.ticksRemaining - 1 }
      else k.threads
    let th2 :=
      if k.switchingEnabled ∧ k.active.head? ≠ some c then
        updThr th1 c { th1 c with ticksRemaining := 0 }
      else th1
    if (th2 c).ticksRemaining ≠ 0 ∨ ¬k.switchingEnabled then
      ({ k with threads := th2 }, false)
    else
      let lists :=
        if c ≠ k.idleId then (k.active.erase c, k.expired ++ [c])
        else (k.active, k.expired)
      let nxt := selectNextThread lists.1 lists.2 k.idleId
      let th3 :=
        if (th2 nxt.1).ticksRemaining = 0 then
          updThr th2 nxt.1 { th2 nxt.1 with ticksRemaining := quantum }
        else th2
      ({ k with
          threads := th3
          active := nxt.2.1
          expired := nxt.2.2
          currentThread := some nxt.1 }, true)

/-- `Thread::forbid()`: `_switchingEnabled = false`, as a transformer of
the flag. -/
def forbid (switchingEnabled : Bool) : Bool := false

/-- `Thread::permit()`: `_switchingEnabled = true`. -/
def permit (switchingEnabled : Bool) : Bool := true

/-- `Thread::isSwitchingEnabled()`. -/
def isSwitchingEnabled (switchingEnabled : Bool) : Bool := switchingEnabled

/-! ## Invariant predicates (spec side) -/

/-- `waiting ⊆ allocated` and the reserved bits stay set in `allocated`
(subset of bit-fields stated through `&&&`). -/
def SigInv (t : TCB) : Prop :=
  t.waitingSignals &&& t.allocatedSignals = t.waitingSignals ∧
  SIG_ALL_RESERVED &&& t.allocatedSignals = SIG_ALL_RESERVED

instance (t : TCB) : Decidable (SigInv t) :=
  inferInstanceAs (Decidable (_ ∧ _))

/-- `current ⊆ allocated`. -/
def CurInv (t : TCB) : Prop :=
  t.currentSignals &&& t.allocatedSignals = t.currentSignals

instance (t : TCB) : Decidable (CurInv t) :=
  inferInstanceAs (Decidable (_ = _))

/-- The millisecond increment at the top of `ISR(TIMER0_COMPA_vect)`
(proof scaffolding for the drain induction). -/
def tickKernel (k : Kernel) : Kernel :=
  { k with milliseconds := (k.milliseconds + 1) % 4294967296 }

/-- The conditional head-offset decrement of `ISR(TIMER0_COMPA_vect)`
(proof scaffolding for the drain induction). -/
def decHead (k : Kernel) (h : Nat) : Kernel :=
  if (k.threads h).timeoutOffset ≠ 0 then
    { k with
      threads := updThr k.threads h
        { k.threads h with
          timeoutOffset := (k.threads h).timeoutOffset - 1 } }
  else k

/-! ## Concrete kernel states used as witnesses -/

/-- A kernel with thread 3 running, thread 7 sleeping on the timeout
list with a pending wait: every thread has `allocated = 15`,
`waiting = 8`, `current = 0`, `timeoutOffset = 1`. -/
def kernelW2 : Kernel :=
  { threads := fun _ => ⟨15, 8, 0, 1, 0⟩
    active := [3]
    expired := []
    timeoutList := [7, 9]
    currentThread := some 3
    idleId := 0
    switchingEnabled := true
    milliseconds := 0 }

/-- A kernel with thread 1 running on its last quantum tick, thread 2
ready with an exhausted quantum, and switching enabled. -/
def kernelW5 : Kernel :=
  { threads := fun i => if i = 1 then ⟨7, 0, 0, 0, 1⟩ else ⟨7, 0, 0, 0, 0⟩
    active := [1, 2]
    expired := []
    timeoutList := []
    currentThread := some 1
    idleId := 0
    switchingEnabled := true
    milliseconds := 0 }

/-- A kernel with thread 5 sleeping on the timeout list, one tick away
from expiry, waiting on `TIMEOUT`, while thread 9 runs. -/
def kernelW7 : Kernel :=
  { threads := fun _ => ⟨7, 4, 0, 1, 0⟩
    active := []
    expired := []
    timeoutList := [5]
    currentThread := some 9
    idleId := 0
    switchingEnabled := true
    milliseconds := 41 }

/-- A kernel with two sleepers expiring on the same tick: thread 5 (the
head, one tick from expiry) and thread 6 (delta 0 behind it), both
waiting on `TIMEOUT`, while thread 9 runs. -/
def kernelW7b : Kernel :=
  { threads := fun i => if i = 5 then ⟨7, 4, 0, 1, 0⟩ else ⟨7, 4, 0, 0, 0⟩
    active := []
    expired := []
    timeoutList := [5, 6]
    currentThread := some 9
    idleId := 0
    switchingEnabled := true
    milliseconds := 41 }

/-! ## Bit-field helper lemmas -/

/-- `landNot` is exactly `Nat.ldiff`, i.e. the C `x & ~m`. -/
theorem landNot_eq_ldiff (x m : Nat) : landNot x m = Nat.ldiff x m := by
  apply Nat.eq_of_testBit_eq
  intro i
  simp only [landNot, Nat.testBit_xor, Nat.testBit_and, Nat.testBit_ldiff]
  cases x.testBit i <;> cases m.testBit i <;> rfl

theorem testBit_landNot (x m i : Nat) :
    (landNot x m).testBit i = (x.testBit i && !(m.testBit i)) := by
  rw [landNot_eq_ldiff, Nat.testBit_ldiff]

/-- Bit-field inclusion, pointwise. -/
theorem land_eq_left_iff {a b : Nat} :
    a &&& b = a ↔ ∀ i, a.testBit i = true → b.testBit i = true := by
  constructor
  · intro h i hi
    have h2 := congrArg (fun x => Nat.testBit x i) h
    simp only [Nat.testBit_and, hi, Bool.true_and] at h2
    exact h2
  · intro h
    apply Nat.eq_of_testBit_eq
    intro i
    simp only [Nat.testBit_and]
    cases ha : a.testBit i
    · rfl
    · simp [h i ha]

theorem landNot_landNot_self (x m : Nat) :
    landNot (landNot x m) m = landNot x m := by
  apply Nat.eq_of_testBit_eq
  intro i
  simp only [testBit_landNot]
  cases x.testBit i <;> cases m.testBit i <;> rfl

theorem land_eq_zero_iff_testBit {a i : Nat} :
    a &&& (1 <<< i) = 0 ↔ a.testBit i = false := by
  constructor
  · intro h
    have h2 := congrArg (fun x => Nat.testBit x i) h
    simp only [Nat.testBit_and, Nat.testBit_shiftLeft, Nat.zero_testBit] at h2
    rcases Bool.and_eq_false_iff.mp h2 with h3 | h3
    · exact h3
    · exfalso
      simp [Nat.sub_self] at h3
  · intro h
    apply Nat.eq_of_testBit_eq
    intro j
    simp only [Nat.testBit_and, Nat.testBit_shiftLeft, Nat.zero_testBit]
    by_cases hij : j = i
    · subst hij
      simp [Nat.sub_self, h]
    · rcases Nat.lt_or_ge j i with hj | hj
      · simp [Nat.not_le.mpr hj]
      · have h1 : Nat.testBit 1 (j - i) = false := by
          apply Nat.testBit_lt_two_pow
          have : j - i ≠ 0 := by omega
          calc 1 < 2 ^ 1 := by omega
            _ ≤ 2 ^ (j - i) := Nat.pow_le_pow_right (by omega) (by omega)
        simp [h1]

/-- The auto-allocation loop fails (returning 0 and changing nothing)
when every bit from `i` up to the field width is already allocated. -/
theorem allocateSignalLoop_saturated (signalBits : Nat) (t : TCB) :
    ∀ fuel i,
      (∀ j, j < signalBits → i ≤ j → t.allocatedSignals.testBit j = true) →
      allocateSignalLoop signalBits t i fuel = (0, t) := by
  intro fuel
  induction fuel with
  | zero => intro i h; rfl
  | succ n ih =>
    intro i h
    by_cases hbi : signalBits ≤ i
    · simp [allocateSignalLoop, hbi]
    · have hb : t.allocatedSignals.testBit i = true := h i (by omega) le_rfl
      have hnz : ¬(t.allocatedSignals &&& (1 <<< i) = 0) := by
        rw [land_eq_zero_iff_testBit, hb]
        simp
      simp only [allocateSignalLoop, tryAllocateSignal, if_neg hbi,
        if_neg hnz]
      exact ih (i + 1) (fun j hj hij => h j hj (by omega))

/-- The auto-allocation loop succeeds (returning a non-zero mask) as
soon as some bit at or above `i` and below the field width is free. -/
theorem allocateSignalLoop_finds (signalBits : Nat) (t : TCB) :
    ∀ fuel i, (∃ j, i ≤ j ∧ j < signalBits ∧
        t.allocatedSignals.testBit j = false) →
      signalBits - i ≤ fuel →
      (allocateSignalLoop signalBits t i fuel).1 ≠ 0 := by
  intro fuel
  induction fuel with
  | zero =>
    intro i hex hfuel
    obtain ⟨j, hij, hjb, _⟩ := hex
    omega
  | succ n ih =>
    intro i hex hfuel
    obtain ⟨j, hij, hjb, hfree⟩ := hex
    have hib : ¬ signalBits ≤ i := by omega
    simp only [allocateSignalLoop, if_neg hib]
    by_cases hbit : t.allocatedSignals.testBit i = false
    · have hz : t.allocatedSignals &&& (1 <<< i) = 0 :=
        land_eq_zero_iff_testBit.mpr hbit
      simp only [tryAllocateSignal, if_neg hib, if_pos hz]
      have hpos : 0 < 1 <<< i := by
        rw [Nat.shiftLeft_eq, Nat.one_mul]
        exact pow_pos (by omega) i
      omega
    · have hbt : t.allocatedSignals.testBit i = true := by
        cases hb2 : t.allocatedSignals.testBit i
        · exact absurd hb2 hbit
        · rfl
      have hnz : ¬(t.allocatedSignals &&& (1 <<< i) = 0) := by
        rw [land_eq_zero_iff_testBit, hbt]
        simp
      simp only [tryAllocateSignal, if_neg hib, if_neg hnz]
      have hji : j ≠ i := by
        intro he
        rw [he, hbt] at hfree
        simp at hfree
      exact ih (i + 1) ⟨j, by omega, hjb, hfree⟩ (by omega)

/-! ## Claims -/

/-- C9: `wait(sigs, timeout)` invoked on a thread `T` that is not the
currently running thread returns 0 and leaves the signal bitfields and
`timeoutOffset` of `T` unchanged. -/
theorem c9_wait_by_wrong_thread (t : TCB) (sigs timeout : Nat) :
    wait false t sigs timeout = (t, .ret 0) := rfl

/-- C8 counterexample: the claim says forbid-forbid-permit-permit
restores the switching flag to its initial value whatever it was; with
the flag initially `false` the sequence ends with `true`. -/
theorem c8_counterexample :
    permit (permit (forbid (forbid false))) ≠ false := by decide

/-- C8 (amended): applying `freeSignals(S)` twice yields the same
`allocated`, `waiting` and `current` bitfields as applying it once; and
forbid-forbid-permit-permit always leaves context switching enabled
(flag `true`), which equals the initial switching state exactly when
switching was initially enabled. -/
theorem c8_freeSignals_idempotent_permit :
    (∀ t signals, freeSignals (freeSignals t signals) signals =
       freeSignals t signals) ∧
    (∀ b, permit (permit (forbid (forbid b))) = true) := by
  constructor
  · intro t signals
    simp [freeSignals, landNot_landNot_self]
  · intro b
    rfl

/-- C4 counterexample: requesting the out-of-range signal number 16 on
a 16-bit signal field with only the reserved bits allocated does not
no-op and return 0 — the call falls into the auto-allocation scan,
allocates bit 3, and returns the mask 8. -/
theorem c4_counterexample :
    allocateSignal 16 ⟨7, 0, 0, 0, 0⟩ 16 ≠ (0, ⟨7, 0, 0, 0, 0⟩) ∧
    allocateSignal 16 ⟨7, 0, 0, 0, 0⟩ 16 = (8, ⟨15, 0, 0, 0, 0⟩) := by
  constructor
  · decide
  · decide

/-- C4 (amended): `tryAllocateSignal` on an out-of-range bit index is a
silent no-op returning false; `allocateSignal` on an out-of-range
requested number performs the auto-allocation scan (the documented `-1`
convention) rather than returning 0 unconditionally; such a call returns
0 and allocates nothing exactly in the saturated case, i.e. when every
non-reserved bit is already allocated (with a free non-reserved bit it
returns a non-zero mask) — which is also when plain auto-allocation
returns 0. -/
theorem c4_allocateSignal_out_of_range :
    (∀ signalBits t n, signalBits ≤ n →
       tryAllocateSignal signalBits t n = (false, t)) ∧
    (∀ signalBits t reqd, signalBits ≤ reqd →
       allocateSignal signalBits t reqd =
         allocateSignalLoop signalBits t NUM_RESERVED_SIGS
           (signalBits - NUM_RESERVED_SIGS)) ∧
    (∀ signalBits t reqd, signalBits ≤ reqd →
       (∀ j, j < signalBits → NUM_RESERVED_SIGS ≤ j →
          t.allocatedSignals.testBit j = true) →
       allocateSignal signalBits t reqd = (0, t)) ∧
    (∀ signalBits t reqd, signalBits ≤ reqd →
       (∃ j, NUM_RESERVED_SIGS ≤ j ∧ j < signalBits ∧
          t.allocatedSignals.testBit j = false) →
       (allocateSignal signalBits t reqd).1 ≠ 0) := by
  refine ⟨?_, ?_, ?_, ?_⟩
  · intro signalBits t n hn
    simp [tryAllocateSignal, hn]
  · intro signalBits t reqd hr
    simp [allocateSignal, Nat.not_lt.mpr hr]
  · intro signalBits t reqd hr hsat
    have h2 : allocateSignal signalBits t reqd =
        allocateSignalLoop signalBits t NUM_RESERVED_SIGS
          (signalBits - NUM_RESERVED_SIGS) := by
      simp [allocateSignal, Nat.not_lt.mpr hr]
    rw [h2]
    exact allocateSignalLoop_saturated signalBits t _ _ hsat
  · intro signalBits t reqd hr hex
    have h2 : allocateSignal signalBits t reqd =
        allocateSignalLoop signalBits t NUM_RESERVED_SIGS
          (signalBits - NUM_RESERVED_SIGS) := by
      simp [allocateSignal, Nat.not_lt.mpr hr]
    rw [h2]
    exact allocateSignalLoop_finds signalBits t _ NUM_RESERVED_SIGS hex
      le_rfl

/-- C4 witness: concrete out-of-range no-op of `tryAllocateSignal`, a
saturated 16-bit field on which an out-of-range request returns 0, and
an unsaturated one on which it returns a non-zero mask. -/
theorem c4_witness :
    tryAllocateSignal 16 ⟨7, 0, 0, 0, 0⟩ 20 = (false, ⟨7, 0, 0, 0, 0⟩) ∧
    allocateSignal 16 ⟨65535, 0, 0, 0, 0⟩ 99 = (0, ⟨65535, 0, 0, 0, 0⟩) ∧
    (allocateSignal 16 ⟨7, 0, 0, 0, 0⟩ 99).1 ≠ 0 :=
  ⟨c4_allocateSignal_out_of_range.1 16 ⟨7, 0, 0, 0, 0⟩ 20 (by omega),
   c4_allocateSignal_out_of_range.2.2.1 16 ⟨65535, 0, 0, 0, 0⟩ 99
     (by omega) (by decide),
   c4_allocateSignal_out_of_range.2.2.2 16 ⟨7, 0, 0, 0, 0⟩ 99 (by omega)
     ⟨3, by decide, by decide, by decide⟩⟩

/-- C1: for a thread waiting on its own signals, the kernel builds the
waiting mask as: `sigs`, with `STOP` ORed in whenever `START` is not in
`sigs`, with `TIMEOUT` ORed in exactly when `timeout > 0` (and cleared
when `timeout = 0`), records `timeoutOffset = timeout`, and intersects
the result with `allocated`; if the resulting waiting mask is 0, `wait`
returns 0 immediately without blocking (and when the mask is non-zero
with no already-active signal, the thread blocks with exactly that
waiting mask and timeout recorded). -/
theorem c1_wait_mask_setup (t : TCB) (sigs timeout w : Nat)
    (hw : w = (if timeout ≠ 0
          then (if sigs &&& SIG_START = 0 then sigs ||| SIG_STOP else sigs)
                 ||| SIG_TIMEOUT
          else landNot (if sigs &&& SIG_START = 0 then sigs ||| SIG_STOP
                 else sigs) SIG_TIMEOUT)
        &&& t.allocatedSignals) :
    (w = 0 →
       wait true t sigs timeout =
         ({ t with waitingSignals := w, timeoutOffset := timeout }, .ret 0)) ∧
    (w ≠ 0 → t.currentSignals &&& w = 0 →
       wait true t sigs timeout =
         ({ t with waitingSignals := w, timeoutOffset := timeout },
          .blocked)) := by
  subst hw
  constructor
  · intro h0
    simp only [wait, waitGo, Bool.not_true, Bool.false_eq_true, if_false,
      getActiveSignals]
    rw [if_pos h0]
  · intro h1 h2
    simp only [wait, waitGo, Bool.not_true, Bool.false_eq_true, if_false,
      getActiveSignals]
    rw [if_neg h1, if_pos h2]

/-- C1 witness: a thread with no allocated signals ends with waiting
mask 0 and an immediate 0 return; waiting on an unallocated user bit
with nothing pending leaves waiting = `STOP` and blocks. -/
theorem c1_witness :
    wait true ⟨0, 0, 0, 0, 0⟩ 0 0 = (⟨0, 0, 0, 0, 0⟩, .ret 0) ∧
    wait true ⟨7, 0, 0, 0, 0⟩ 8 0 = (⟨7, 2, 0, 0, 0⟩, .blocked) :=
  ⟨(c1_wait_mask_setup ⟨0, 0, 0, 0, 0⟩ 0 0 0 (by decide)).1 rfl,
   (c1_wait_mask_setup ⟨7, 0, 0, 0, 0⟩ 8 0 2 (by decide)).2 (by decide)
     (by decide)⟩

theorem land_land_self (x y : Nat) : (x &&& y) &&& y = x &&& y := by
  apply Nat.eq_of_testBit_eq
  intro i
  simp only [Nat.testBit_and]
  cases x.testBit i <;> cases y.testBit i <;> rfl

theorem sub_lor_right {a b : Nat} (h : a &&& b = a) (m : Nat) :
    a &&& (b ||| m) = a := by
  rw [land_eq_left_iff] at h ⊢
  intro i hi
  simp [Nat.testBit_or, h i hi]

theorem sub_landNot_both {a b : Nat} (h : a &&& b = a) (m : Nat) :
    landNot a m &&& landNot b m = landNot a m := by
  rw [land_eq_left_iff] at h ⊢
  intro i hi
  rw [testBit_landNot] at hi ⊢
  have h1 := Bool.and_eq_true_iff.mp hi
  simp [h i h1.1, h1.2]

theorem sub_landNot_left {a b : Nat} (h : a &&& b = a) (m : Nat) :
    landNot a m &&& b = landNot a m := by
  rw [land_eq_left_iff] at h ⊢
  intro i hi
  rw [testBit_landNot] at hi
  exact h i (Bool.and_eq_true_iff.mp hi).1

theorem reserved_landNot {a : Nat}
    (h : SIG_ALL_RESERVED &&& a = SIG_ALL_RESERVED) (signals : Nat) :
    SIG_ALL_RESERVED &&& landNot a (landNot signals SIG_ALL_RESERVED) =
      SIG_ALL_RESERVED := by
  rw [land_eq_left_iff] at h ⊢
  intro i hi
  rw [testBit_landNot, testBit_landNot]
  simp [h i hi, hi]

theorem lor_land_sub {c al : Nat} (h : c &&& al = c) (s : Nat) :
    (c ||| (s &&& al)) &&& al = c ||| (s &&& al) := by
  rw [land_eq_left_iff] at h ⊢
  intro i hi
  simp only [Nat.testBit_or, Nat.testBit_and] at hi ⊢
  rcases Bool.or_eq_true_iff.mp hi with h1 | h1
  · simp [h i h1]
  · simp [(Bool.and_eq_true_iff.mp h1).2]

theorem waitAfterStop_fst (p : TCB × WaitOutcome) (rc : Nat) :
    (waitAfterStop p rc).1 = p.1 := by
  rcases p with ⟨t, o⟩
  cases o <;> rfl

theorem waitGo_sigInv (b : Bool) :
    ∀ fuel t sigs timeout, SigInv t → SigInv (waitGo b fuel t sigs timeout).1 := by
  intro fuel
  induction fuel with
  | zero => intro t sigs timeout h; exact h
  | succ n ih =>
    intro t sigs timeout h
    cases b with
    | false => exact h
    | true =>
      simp only [waitGo, Bool.not_true, Bool.false_eq_true, if_false]
      repeat' split
      all_goals first
        | exact ⟨land_land_self _ _, h.2⟩
        | (rw [waitAfterStop_fst]
           exact ih _ _ _ ⟨land_land_self _ _, h.2⟩)

theorem offsetRemoveGo_fields (tid : Nat) :
    ∀ (l : List Nat) (threads : Nat → TCB) (j : Nat),
      ((offsetRemoveGo threads tid l).2 j).allocatedSignals =
        (threads j).allocatedSignals ∧
      ((offsetRemoveGo threads tid l).2 j).waitingSignals =
        (threads j).waitingSignals ∧
      ((offsetRemoveGo threads tid l).2 j).currentSignals =
        (threads j).currentSignals ∧
      ((offsetRemoveGo threads tid l).2 j).ticksRemaining =
        (threads j).ticksRemaining := by
  intro l
  induction l with
  | nil => intro threads j; exact ⟨rfl, rfl, rfl, rfl⟩
  | cons x rest ih =>
    intro threads j
    simp only [offsetRemoveGo]
    split
    · split
      · exact ⟨rfl, rfl, rfl, rfl⟩
      · simp only [updThr]
        split
        · rename_i hjs
          subst hjs
          exact ⟨rfl, rfl, rfl, rfl⟩
        · exact ⟨rfl, rfl, rfl, rfl⟩
    · exact ih threads j

theorem signalThread_fields (k : Kernel) (tid sigs j : Nat) :
    ((signalThread k tid sigs).threads j).allocatedSignals =
      (k.threads j).allocatedSignals ∧
    ((signalThread k tid sigs).threads j).waitingSignals =
      (k.threads j).waitingSignals ∧
    ((signalThread k tid sigs).threads j).currentSignals =
      (if j = tid then
        (k.threads j).currentSignals |||
          (sigs &&& (k.threads j).allocatedSignals)
       else (k.threads j).currentSignals) := by
  simp only [signalThread]
  split
  · split
    · by_cases hj : j = tid
      · subst hj
        have hf := offsetRemoveGo_fields j k.timeoutList
          (updThr k.threads j { k.threads j with
            currentSignals := (k.threads j).currentSignals |||
              (sigs &&& (k.threads j).allocatedSignals) }) j
        simp only [updThr, if_pos rfl] at hf ⊢
        simp [hf.1, hf.2.1, hf.2.2.1]
      · have hf := offsetRemoveGo_fields tid k.timeoutList
          (updThr k.threads tid { k.threads tid with
            currentSignals := (k.threads tid).currentSignals |||
              (sigs &&& (k.threads tid).allocatedSignals) }) j
        simp only [updThr, if_neg hj] at hf ⊢
        simp [hf.1, hf.2.1, hf.2.2.1, hj]
    · simp only [updThr]
      by_cases hj : j = tid
      · subst hj; simp
      · simp [hj]
  · simp only [updThr]
    by_cases hj : j = tid
    · subst hj; simp
    · simp [hj]

theorem waitGo_curInv (b : Bool) :
    ∀ fuel t sigs timeout, CurInv t → CurInv (waitGo b fuel t sigs timeout).1 := by
  intro fuel
  induction fuel with
  | zero => intro t sigs timeout h; exact h
  | succ n ih =>
    intro t sigs timeout h
    cases b with
    | false => exact h
    | true =>
      simp only [waitGo, Bool.not_true, Bool.false_eq_true, if_false]
      repeat' split
      all_goals first
        | exact h
        | exact sub_landNot_left h _
        | (rw [waitAfterStop_fst]
           exact ih _ _ _ (sub_landNot_left h _))

theorem allocateSignalLoop_snd_shape (signalBits : Nat) :
    ∀ fuel t i, (allocateSignalLoop signalBits t i fuel).2 = t ∨
      ∃ m, (allocateSignalLoop signalBits t i fuel).2 =
        { t with allocatedSignals := t.allocatedSignals ||| m } := by
  intro fuel
  induction fuel with
  | zero => intro t i; left; rfl
  | succ n ih =>
    intro t i
    simp only [allocateSignalLoop]
    split
    · left; rfl
    · rename_i hbi
      simp only [tryAllocateSignal, if_neg hbi]
      by_cases halloc : t.allocatedSignals &&& 1 <<< i = 0
      · rw [if_pos halloc]
        right
        exact ⟨1 <<< i, rfl⟩
      · rw [if_neg halloc]
        exact ih t (i + 1)

theorem allocateSignal_snd_shape (signalBits : Nat) (t : TCB) (reqd : Nat) :
    (allocateSignal signalBits t reqd).2 = t ∨
      ∃ m, (allocateSignal signalBits t reqd).2 =
        { t with allocatedSignals := t.allocatedSignals ||| m } := by
  simp only [allocateSignal]
  split
  · rename_i hr
    simp only [tryAllocateSignal, if_neg (Nat.not_le.mpr hr)]
    by_cases halloc : t.allocatedSignals &&& 1 <<< reqd = 0
    · rw [if_pos halloc]
      right
      exact ⟨1 <<< reqd, rfl⟩
    · rw [if_neg halloc]
      left
      rfl
  · exact allocateSignalLoop_snd_shape signalBits _ t NUM_RESERVED_SIGS

/-- C6: for every live thread, `waiting ⊆ allocated` holds and the
reserved signal bits stay set in `allocated`, before and after each of
the signal operations: `wait`, `signal`, `allocateSignal`,
`freeSignals`, and `reanimate` (which establishes the invariant). -/
theorem c6_reserved_invariant :
    (∀ isCurrent t sigs timeout, SigInv t →
       SigInv (wait isCurrent t sigs timeout).1) ∧
    (∀ k tid sigs j, SigInv (k.threads j) →
       SigInv ((signalThread k tid sigs).threads j)) ∧
    (∀ signalBits t reqd, SigInv t →
       SigInv (allocateSignal signalBits t reqd).2) ∧
    (∀ t signals, SigInv t → SigInv (freeSignals t signals)) ∧
    (∀ t, SigInv (reanimate t)) := by
  refine ⟨?_, ?_, ?_, ?_, ?_⟩
  · intro isCurrent t sigs timeout h
    exact waitGo_sigInv isCurrent 2 t sigs timeout h
  · intro k tid sigs j h
    have hf := signalThread_fields k tid sigs j
    constructor
    · rw [hf.2.1, hf.1]
      exact h.1
    · rw [hf.1]
      exact h.2
  · intro signalBits t reqd h
    rcases allocateSignal_snd_shape signalBits t reqd with hs | ⟨m, hs⟩
    · rw [hs]; exact h
    · rw [hs]
      exact ⟨sub_lor_right h.1 m, sub_lor_right h.2 m⟩
  · intro t signals h
    exact ⟨sub_landNot_both h.1 _, reserved_landNot h.2 _⟩
  · intro t
    refine ⟨Nat.zero_and _, ?_⟩
    show SIG_ALL_RESERVED &&& SIG_ALL_RESERVED = SIG_ALL_RESERVED
    decide

/-- C6 witness: the invariant is preserved through a concrete blocking
`wait` and a concrete `freeSignals` on states satisfying it. -/
theorem c6_witness :
    SigInv (wait true ⟨7, 2, 0, 0, 0⟩ 8 5).1 ∧
    SigInv (freeSignals ⟨15, 10, 0, 0, 0⟩ 56) :=
  ⟨c6_reserved_invariant.1 true ⟨7, 2, 0, 0, 0⟩ 8 5 (by decide),
   c6_reserved_invariant.2.2.2.1 ⟨15, 10, 0, 0, 0⟩ 56 (by decide)⟩

/-- C10: for every live thread, `current ⊆ allocated` holds at all
times: `signal` only sets bits of `current` present in `allocated`,
`freeSignals` clears freed bits from both, `clearSignals` only clears
bits, `reanimate` resets `current` to 0 with `allocated` the reserved
bits; `wait` and `allocateSignal` also preserve the invariant, so no
modelled operation ever sets a bit of `current` outside `allocated`. -/
theorem c10_current_invariant :
    (∀ k tid sigs j, CurInv (k.threads j) →
       CurInv ((signalThread k tid sigs).threads j)) ∧
    (∀ t signals, CurInv t → CurInv (freeSignals t signals)) ∧
    (∀ t sigs, CurInv t → CurInv (clearSignals t sigs)) ∧
    (∀ t, CurInv (reanimate t)) ∧
    (∀ isCurrent t sigs timeout, CurInv t →
       CurInv (wait isCurrent t sigs timeout).1) ∧
    (∀ signalBits t reqd, CurInv t →
       CurInv (allocateSignal signalBits t reqd).2) := by
  refine ⟨?_, ?_, ?_, ?_, ?_, ?_⟩
  · intro k tid sigs j h
    have hf := signalThread_fields k tid sigs j
    unfold CurInv
    rw [hf.2.2, hf.1]
    by_cases hj : j = tid
    · rw [if_pos hj]
      exact lor_land_sub h sigs
    · rw [if_neg hj]
      exact h
  · intro t signals h
    exact sub_landNot_both h _
  · intro t sigs h
    exact sub_landNot_left h _
  · intro t
    exact Nat.zero_and _
  · intro isCurrent t sigs timeout h
    exact waitGo_curInv isCurrent 2 t sigs timeout h
  · intro signalBits t reqd h
    rcases allocateSignal_snd_shape signalBits t reqd with hs | ⟨m, hs⟩
    · rw [hs]; exact h
    · rw [hs]
      exact sub_lor_right h m

/-- C10 witness: the invariant is preserved through a concrete `wait`
that consumes an active signal and a concrete `clearSignals`. -/
theorem c10_witness :
    CurInv (wait true ⟨7, 2, 2, 0, 0⟩ 0 0).1 ∧
    CurInv (clearSignals ⟨15, 0, 10, 0, 0⟩ 2) :=
  ⟨c10_current_invariant.2.2.2.2.1 true ⟨7, 2, 2, 0, 0⟩ 0 0 (by decide),
   c10_current_invariant.2.2.1 ⟨15, 0, 10, 0, 0⟩ 2 (by decide)⟩

theorem offsetRemoveGo_fst (threads : Nat → TCB) (tid : Nat) :
    ∀ l : List Nat, (offsetRemoveGo threads tid l).1 = l.erase tid := by
  intro l
  induction l with
  | nil => rfl
  | cons x rest ih =>
    simp only [offsetRemoveGo]
    split
    · rename_i hx
      cases rest <;> simp [List.erase_cons, hx]
    · rename_i hx
      simp [List.erase_cons, hx, ih]

/-- C2: `signal(sigs)` on thread `tid` sets its current mask to
`current OR (sigs AND allocated)`; and when `tid` is not the calling
thread, had no active waited signals before the call, and has at least
one afterwards, it is moved to the head of the active ready list, being
first removed from the timeout list with its `timeoutOffset` cleared to
0 when that offset was non-zero. -/
theorem c2_signal_sets_and_wakes (k : Kernel) (tid sigs : Nat) :
    ((signalThread k tid sigs).threads tid).currentSignals =
      (k.threads tid).currentSignals |||
        (sigs &&& (k.threads tid).allocatedSignals) ∧
    (k.currentThread ≠ some tid →
     (k.threads tid).currentSignals &&& (k.threads tid).waitingSignals = 0 →
     ((k.threads tid).currentSignals |||
        (sigs &&& (k.threads tid).allocatedSignals)) &&&
       (k.threads tid).waitingSignals ≠ 0 →
     (signalThread k tid sigs).active = tid :: k.active.erase tid ∧
     ((k.threads tid).timeoutOffset ≠ 0 →
        (signalThread k tid sigs).timeoutList = k.timeoutList.erase tid ∧
        ((signalThread k tid sigs).threads tid).timeoutOffset = 0) ∧
     ((k.threads tid).timeoutOffset = 0 →
        (signalThread k tid sigs).timeoutList = k.timeoutList)) := by
  constructor
  · have hf := (signalThread_fields k tid sigs tid).2.2
    rw [hf, if_pos rfl]
  · intro h1 h2 h3
    have hcond : k.currentThread ≠ some tid ∧
        ¬(getActiveSignals (k.threads tid) ≠ 0) ∧
        getActiveSignals { k.threads tid with
          currentSignals := (k.threads tid).currentSignals |||
            (sigs &&& (k.threads tid).allocatedSignals) } ≠ 0 := by
      refine ⟨h1, ?_, ?_⟩
      · simpa [getActiveSignals] using h2
      · simpa [getActiveSignals] using h3
    refine ⟨?_, ?_, ?_⟩
    · simp only [signalThread, if_pos hcond]
      split
      · simp
      · simp
    · intro hto
      constructor
      · simp only [signalThread, if_pos hcond]
        rw [if_pos hto]
        simp [offsetRemoveGo_fst]
      · simp only [signalThread, if_pos hcond]
        rw [if_pos hto]
        simp [updThr]
    · intro hto
      simp only [signalThread, if_pos hcond]
      rw [if_neg (by simpa using hto)]

/-- C2 witness: signalling sleeping thread 7 with its waited bit 8 moves
it to the head of the active list, removes it from the timeout list and
clears its timeout offset. -/
theorem c2_witness :
    (signalThread kernelW2 7 8).active = [7, 3] ∧
    (signalThread kernelW2 7 8).timeoutList = [9] ∧
    ((signalThread kernelW2 7 8).threads 7).timeoutOffset = 0 := by
  have h := (c2_signal_sets_and_wakes kernelW2 7 8).2 (by decide) (by decide)
    (by decide)
  exact ⟨h.1, (h.2.1 (by decide)).1, (h.2.1 (by decide)).2⟩

theorem isrTimerB_disabled (q : Nat) (k : Kernel) (c : Nat)
    (hc : k.currentThread = some c) (hsw : k.switchingEnabled = false) :
    (isrTimerB q k).2 = false ∧
    (isrTimerB q k).1.currentThread = some c ∧
    (isrTimerB q k).1.active = k.active ∧
    (isrTimerB q k).1.expired = k.expired := by
  have h2 : ¬(k.switchingEnabled ∧ k.active.head? ≠ some c) := by simp [hsw]
  simp only [isrTimerB, hc]
  rw [if_neg h2]
  rw [if_pos (Or.inr (show ¬k.switchingEnabled by simp [hsw]))]
  exact ⟨rfl, rfl, rfl, rfl⟩

theorem isrTimerB_noswitch_iff (q : Nat) (k : Kernel) (c : Nat)
    (hc : k.currentThread = some c) (hsw : k.switchingEnabled = true) :
    ((isrTimerB q k).2 = false ↔
      0 < (if k.active.head? = some c then (k.threads c).ticksRemaining - 1
           else 0)) := by
  simp only [isrTimerB, hc, hsw, updThr]
  repeat' split
  all_goals simp_all [updThr]
  all_goals omega

theorem isrTimerB_switch_lists (q : Nat) (k : Kernel) (c : Nat)
    (hc : k.currentThread = some c) (hflag : (isrTimerB q k).2 = true)
    (hcid : c ≠ k.idleId) :
    (k.active.erase c ≠ [] →
       (isrTimerB q k).1.active = k.active.erase c ∧
       (isrTimerB q k).1.expired = k.expired ++ [c] ∧
       (isrTimerB q k).1.currentThread = (k.active.erase c).head?) ∧
    (k.active.erase c = [] →
       (isrTimerB q k).1.active = k.expired ++ [c] ∧
       (isrTimerB q k).1.expired = [] ∧
       (isrTimerB q k).1.currentThread = (k.expired ++ [c]).head?) := by
  simp only [isrTimerB, hc, selectNextThread] at hflag ⊢
  repeat' split
  all_goals simp_all [updThr]
  all_goals
    first
      | omega
      | (constructor <;> intro h2 <;> simp_all)
      | ((casesm* _ ∨ _, _ ∧ _) <;> simp_all [Option.or])

set_option maxHeartbeats 1600000 in
theorem isrTimerB_idle_not_queued (q : Nat) (k : Kernel) (c : Nat)
    (hc : k.currentThread = some c) (hflag : (isrTimerB q k).2 = true)
    (hcid : c = k.idleId) (ha : c ∉ k.active) (he : c ∉ k.expired) :
    c ∉ (isrTimerB q k).1.active ∧ c ∉ (isrTimerB q k).1.expired := by
  simp only [isrTimerB, hc, selectNextThread] at hflag ⊢
  repeat' split
  all_goals simp_all [updThr]

set_option maxHeartbeats 3200000 in
theorem isrTimerB_quantum_topup (q : Nat) (k : Kernel) (c : Nat)
    (hc : k.currentThread = some c) (hflag : (isrTimerB q k).2 = true) :
    ∀ n, (isrTimerB q k).1.currentThread = some n →
      (n = c → ((isrTimerB q k).1.threads n).ticksRemaining = q) ∧
      (n ≠ c →
        ((k.threads n).ticksRemaining = 0 →
           ((isrTimerB q k).1.threads n).ticksRemaining = q) ∧
        ((k.threads n).ticksRemaining ≠ 0 →
           ((isrTimerB q k).1.threads n).ticksRemaining =
             (k.threads n).ticksRemaining)) := by
  intro n hn
  simp only [isrTimerB, hc, selectNextThread] at hflag hn ⊢
  repeat' split
  all_goals simp_all [updThr]
  all_goals
    first
      | (constructor <;> (intros; simp_all))
      | (intros; simp_all)

/-- C5: while switching is disabled the preemption ISR performs no
context switch and the current thread stays current; with switching
enabled the ISR returns without switching exactly when the current
thread still has ticks remaining after this tick's quantum accounting
(decrement, and forfeit when not at the head of the active list); on a
switch the current thread moves from the active list to the tail of
the expired list unless it is the idle thread, which is never queued
(the selection step may then swap the two lists); and the incoming
thread's quantum is topped up to `QUANTUM_TICKS` only if it was
exhausted. -/
theorem c5_preemption_switching (q : Nat) (k : Kernel) (c : Nat)
    (hc : k.currentThread = some c) :
    (k.switchingEnabled = false →
       (isrTimerB q k).2 = false ∧
       (isrTimerB q k).1.currentThread = some c ∧
       (isrTimerB q k).1.active = k.active ∧
       (isrTimerB q k).1.expired = k.expired) ∧
    (k.switchingEnabled = true →
       ((isrTimerB q k).2 = false ↔
         0 < (if k.active.head? = some c
              then (k.threads c).ticksRemaining - 1 else 0))) ∧
    ((isrTimerB q k).2 = true → c ≠ k.idleId →
       (k.active.erase c ≠ [] →
          (isrTimerB q k).1.active = k.active.erase c ∧
          (isrTimerB q k).1.expired = k.expired ++ [c] ∧
          (isrTimerB q k).1.currentThread = (k.active.erase c).head?) ∧
       (k.active.erase c = [] →
          (isrTimerB q k).1.active = k.expired ++ [c] ∧
          (isrTimerB q k).1.expired = [] ∧
          (isrTimerB q k).1.currentThread = (k.expired ++ [c]).head?)) ∧
    ((isrTimerB q k).2 = true → c = k.idleId → c ∉ k.active →
       c ∉ k.expired →
       c ∉ (isrTimerB q k).1.active ∧ c ∉ (isrTimerB q k).1.expired) ∧
    ((isrTimerB q k).2 = true → ∀ n,
       (isrTimerB q k).1.currentThread = some n →
       (n = c → ((isrTimerB q k).1.threads n).ticksRemaining = q) ∧
       (n ≠ c →
         ((k.threads n).ticksRemaining = 0 →
            ((isrTimerB q k).1.threads n).ticksRemaining = q) ∧
         ((k.threads n).ticksRemaining ≠ 0 →
            ((isrTimerB q k).1.threads n).ticksRemaining =
              (k.threads n).ticksRemaining))) :=
  ⟨fun hsw => isrTimerB_disabled q k c hc hsw,
   fun hsw => isrTimerB_noswitch_iff q k c hc hsw,
   fun hf hcid => isrTimerB_switch_lists q k c hc hf hcid,
   fun hf hcid ha he => isrTimerB_idle_not_queued q k c hc hf hcid ha he,
   fun hf => isrTimerB_quantum_topup q k c hc hf⟩

/-- C5 witness: on `kernelW5` the tick exhausts thread 1's quantum, a
switch moves it to the expired list, thread 2 becomes current, and its
exhausted quantum is topped up to the quantum of 5. -/
theorem c5_witness :
    (isrTimerB 5 kernelW5).2 = true ∧
    (isrTimerB 5 kernelW5).1.active = [2] ∧
    (isrTimerB 5 kernelW5).1.expired = [1] ∧
    (isrTimerB 5 kernelW5).1.currentThread = some 2 ∧
    ((isrTimerB 5 kernelW5).1.threads 2).ticksRemaining = 5 := by
  have h := c5_preemption_switching 5 kernelW5 1 rfl
  have hflag : (isrTimerB 5 kernelW5).2 = true := by
    cases hb : (isrTimerB 5 kernelW5).2
    · exfalso
      have h1 := (h.2.1 rfl).mp hb
      have h0 : (if kernelW5.active.head? = some 1
          then (kernelW5.threads 1).ticksRemaining - 1 else 0) = 0 := by
        decide
      rw [h0] at h1
      omega
    · rfl
  have hl := (h.2.2.1 hflag (by decide)).1 (by decide)
  have hcur : (isrTimerB 5 kernelW5).1.currentThread = some 2 := by
    rw [hl.2.2]
    decide
  have ht := ((h.2.2.2.2 hflag) 2 hcur).2 (by decide)
  refine ⟨hflag, ?_, ?_, hcur, ?_⟩
  · rw [hl.1]
    decide
  · rw [hl.2.1]
    decide
  · exact ht.1 (by decide)

theorem signalThread_ms (k : Kernel) (tid sigs : Nat) :
    (signalThread k tid sigs).milliseconds = k.milliseconds := by
  simp only [signalThread]
  repeat' split
  all_goals rfl

theorem signalThread_currentThread (k : Kernel) (tid sigs : Nat) :
    (signalThread k tid sigs).currentThread = k.currentThread := by
  simp only [signalThread]
  repeat' split
  all_goals rfl

theorem signalThread_timeoutList_of_offset_zero (k : Kernel) (tid sigs : Nat)
    (h : (k.threads tid).timeoutOffset = 0) :
    (signalThread k tid sigs).timeoutList = k.timeoutList := by
  simp only [signalThread]
  split
  · rw [if_neg (by simpa using h)]
  · rfl

theorem signalThread_threads_of_offset_zero (k : Kernel) (tid sigs : Nat)
    (h : (k.threads tid).timeoutOffset = 0) (j : Nat) :
    (signalThread k tid sigs).threads j =
      (if j = tid then
        { k.threads tid with
          currentSignals := (k.threads tid).currentSignals |||
            (sigs &&& (k.threads tid).allocatedSignals) }
       else k.threads j) := by
  simp only [signalThread]
  split
  · rw [if_neg (by simpa using h)]
    simp only [updThr]
  · simp only [updThr]

theorem signalThread_active_wake (k : Kernel) (tid sigs : Nat)
    (h1 : k.currentThread ≠ some tid)
    (h2 : (k.threads tid).currentSignals &&& (k.threads tid).waitingSignals
      = 0)
    (h3 : ((k.threads tid).currentSignals |||
        (sigs &&& (k.threads tid).allocatedSignals)) &&&
        (k.threads tid).waitingSignals ≠ 0) :
    (signalThread k tid sigs).active = tid :: k.active.erase tid := by
  have hcond : k.currentThread ≠ some tid ∧
      ¬(getActiveSignals (k.threads tid) ≠ 0) ∧
      getActiveSignals { k.threads tid with
        currentSignals := (k.threads tid).currentSignals |||
          (sigs &&& (k.threads tid).allocatedSignals) } ≠ 0 := by
    refine ⟨h1, ?_, ?_⟩
    · simpa [getActiveSignals] using h2
    · simpa [getActiveSignals] using h3
  simp only [signalThread, if_pos hcond]
  split <;> rfl

theorem signalThread_active_no_wake (k : Kernel) (tid sigs : Nat)
    (h : ¬(k.currentThread ≠ some tid ∧
      getActiveSignals (k.threads tid) = 0 ∧
      getActiveSignals { k.threads tid with
        currentSignals := (k.threads tid).currentSignals |||
          (sigs &&& (k.threads tid).allocatedSignals) } ≠ 0)) :
    (signalThread k tid sigs).active = k.active := by
  simp only [signalThread]
  rw [if_neg (by simpa [getActiveSignals] using h)]

theorem isrADrain_ms (fuel : Nat) :
    ∀ k, (isrADrain fuel k).milliseconds = k.milliseconds := by
  induction fuel with
  | zero => intro k; rfl
  | succ n ih =>
    intro k
    simp only [isrADrain]
    split
    · rfl
    · split
      · rw [ih, signalThread_ms]
      · rfl

theorem isrADrain_stop (fuel : Nat) (k : Kernel)
    (hd : ∀ h2, k.timeoutList.head? = some h2 →
      (k.threads h2).timeoutOffset ≠ 0) :
    isrADrain fuel k = k := by
  cases fuel with
  | zero => rfl
  | succ n =>
    simp only [isrADrain]
    split
    · rfl
    · rename_i h2 heq
      rw [if_neg (hd h2 heq)]

theorem isrADrain_succ_step (fuel : Nat) (k : Kernel) (h : Nat)
    (hh : k.timeoutList.head? = some h)
    (hz : (k.threads h).timeoutOffset = 0) :
    isrADrain (fuel + 1) k =
      isrADrain fuel (signalThread
        { k with
          timeoutList := (offsetRemoveGo k.threads h k.timeoutList).1
          threads := (offsetRemoveGo k.threads h k.timeoutList).2 }
        h SIG_TIMEOUT) := by
  simp only [isrADrain, hh]
  rw [if_pos hz]

/-- Removing a node whose own offset is zero leaves every control block
unchanged (the successor absorbs a zero delta). -/
theorem offsetRemoveGo_snd_of_zero (th : Nat → TCB) (tid : Nat)
    (hz : (th tid).timeoutOffset = 0) :
    ∀ (l : List Nat) (j : Nat), (offsetRemoveGo th tid l).2 j = th j := by
  intro l
  induction l with
  | nil => intro j; rfl
  | cons x rest ih =>
    intro j
    simp only [offsetRemoveGo]
    split
    · split
      · rfl
      · simp only [updThr, hz]
        split
        · rename_i hjs
          subst hjs
          rfl
        · rfl
    · exact ih j

theorem isrTimerA_eq_drain (k : Kernel) (h : Nat) (l : List Nat)
    (hlist : k.timeoutList = h :: l) :
    isrTimerA k = isrADrain (h :: l).length (decHead (tickKernel k) h) := by
  simp only [isrTimerA, hlist, List.head?_cons, decHead, tickKernel]
  by_cases hd : (k.threads h).timeoutOffset ≠ 0
  · rw [if_pos hd]
  · rw [if_neg hd]

/-- The drain loop of `ISR(TIMER0_COMPA_vect)` in general: every zero
offset head is removed and signalled with `TIMEOUT`, the loop stopping
at the first head with a non-zero offset. -/
theorem isrADrain_drains (zs : List Nat) :
    ∀ (k : Kernel) (rest : List Nat),
      k.timeoutList = zs ++ rest →
      (zs ++ rest).Nodup →
      (∀ z, z ∈ zs → (k.threads z).timeoutOffset = 0) →
      (∀ h2, rest.head? = some h2 → (k.threads h2).timeoutOffset ≠ 0) →
      (isrADrain k.timeoutList.length k).timeoutList = rest ∧
      (∀ z, z ∈ zs →
        ((isrADrain k.timeoutList.length k).threads z).currentSignals =
          (k.threads z).currentSignals |||
            (SIG_TIMEOUT &&& (k.threads z).allocatedSignals) ∧
        ((isrADrain k.timeoutList.length k).threads z).timeoutOffset
          = 0) ∧
      (∀ j, j ∉ zs →
        (isrADrain k.timeoutList.length k).threads j = k.threads j) := by
  induction zs with
  | nil =>
    intro k rest hlist hnodup hz hrest
    rw [isrADrain_stop]
    · exact ⟨by simpa using hlist, fun z hzz => absurd hzz (by simp),
        fun j hj => rfl⟩
    · intro h2 hh2
      rw [hlist] at hh2
      exact hrest h2 (by simpa using hh2)
  | cons z zs' ih =>
    intro k rest hlist hnodup hz hrest
    have hz0 : (k.threads z).timeoutOffset = 0 := hz z (by simp)
    have hznotin : z ∉ zs' ++ rest :=
      (List.nodup_cons.mp (by simpa using hnodup)).1
    have hstep := isrADrain_succ_step ((zs' ++ rest).length) k z
      (by rw [hlist]; rfl) hz0
    have hlen : k.timeoutList.length = (zs' ++ rest).length + 1 := by
      rw [hlist]
      simp
    rw [hlen, hstep]
    generalize hk3 : signalThread
      { k with
        timeoutList := (offsetRemoveGo k.threads z k.timeoutList).1
        threads := (offsetRemoveGo k.threads z k.timeoutList).2 } z
      SIG_TIMEOUT = k3
    have hk3threads : ∀ j, k3.threads j =
        (if j = z then
          { k.threads z with
            currentSignals := (k.threads z).currentSignals |||
              (SIG_TIMEOUT &&& (k.threads z).allocatedSignals) }
         else k.threads j) := by
      intro j
      rw [← hk3]
      rw [signalThread_threads_of_offset_zero]
      · simp only [offsetRemoveGo_snd_of_zero k.threads z hz0]
      · simpa [offsetRemoveGo_snd_of_zero k.threads z hz0] using hz0
    have hk3list : k3.timeoutList = zs' ++ rest := by
      rw [← hk3, signalThread_timeoutList_of_offset_zero]
      · show (offsetRemoveGo k.threads z k.timeoutList).1 = zs' ++ rest
        rw [offsetRemoveGo_fst, hlist]
        simp
      · simpa [offsetRemoveGo_snd_of_zero k.threads z hz0] using hz0
    have hlen3 : (zs' ++ rest).length = k3.timeoutList.length := by
      rw [hk3list]
    rw [hlen3]
    have hmain := ih k3 rest hk3list
      (List.nodup_cons.mp (by simpa using hnodup)).2
      (by
        intro z' hz'
        have hne : z' ≠ z := by
          intro he
          subst he
          exact hznotin (List.mem_append_left _ hz')
        rw [hk3threads z', if_neg hne]
        exact hz z' (List.mem_cons_of_mem _ hz'))
      (by
        intro h2 hh2
        have hmem : h2 ∈ rest := by
          cases rest with
          | nil => simp at hh2
          | cons r rs =>
            simp only [List.head?_cons, Option.some.injEq] at hh2
            subst hh2
            simp
        have hne : h2 ≠ z := by
          intro he
          subst he
          exact hznotin (List.mem_append_right _ hmem)
        rw [hk3threads h2, if_neg hne]
        exact hrest h2 hh2)
    obtain ⟨hL, hZ, hJ⟩ := hmain
    refine ⟨hL, ?_, ?_⟩
    · intro w hw
      rcases List.mem_cons.mp hw with hwz | hwzs
      · subst hwz
        have hfz := hJ w (fun hmem =>
          hznotin (List.mem_append_left _ hmem))
        rw [hfz, hk3threads w, if_pos rfl]
        exact ⟨rfl, by simpa using hz0⟩
      · have hwz : w ≠ z := by
          intro he
          subst he
          exact hznotin (List.mem_append_left _ hwzs)
        have hZw := hZ w hwzs
        rw [hk3threads w, if_neg hwz] at hZw
        exact hZw
    · intro j hj
      have hjz : j ≠ z := by
        intro he
        subst he
        exact hj (List.mem_cons_self _ _)
      have hjzs : j ∉ zs' := fun hm => hj (List.mem_cons_of_mem _ hm)
      rw [hJ j hjzs, hk3threads j, if_neg hjz]

theorem isrTimerA_decrement_only (k : Kernel) (h : Nat) (rest : List Nat)
    (hlist : k.timeoutList = h :: rest)
    (hoff : 2 ≤ (k.threads h).timeoutOffset) :
    (isrTimerA k).timeoutList = k.timeoutList ∧
    ((isrTimerA k).threads h).timeoutOffset =
      (k.threads h).timeoutOffset - 1 ∧
    ((isrTimerA k).threads h).currentSignals =
      (k.threads h).currentSignals ∧
    (∀ j, j ≠ h → (isrTimerA k).threads j = k.threads j) ∧
    (isrTimerA k).active = k.active := by
  have hne : (k.threads h).timeoutOffset ≠ 0 := by omega
  simp only [isrTimerA, hlist, List.head?_cons]
  rw [if_pos hne]
  rw [isrADrain_stop]
  · refine ⟨rfl, ?_, ?_, ?_, rfl⟩
    · simp [updThr]
    · simp [updThr]
    · intro j hj
      simp [updThr, hj]
  · intro h2 hh2
    simp only [List.head?_cons, Option.some.injEq] at hh2
    subst hh2
    simp [updThr]
    omega

theorem isrTimerA_drain_single (k : Kernel) (h : Nat)
    (hlist : k.timeoutList = [h])
    (hoff : (k.threads h).timeoutOffset = 1) :
    (isrTimerA k).timeoutList = [] ∧
    ((isrTimerA k).threads h).currentSignals =
      (k.threads h).currentSignals |||
        (SIG_TIMEOUT &&& (k.threads h).allocatedSignals) ∧
    ((isrTimerA k).threads h).timeoutOffset = 0 ∧
    (k.currentThread ≠ some h →
     (k.threads h).currentSignals &&& (k.threads h).waitingSignals = 0 →
     ((k.threads h).currentSignals |||
        (SIG_TIMEOUT &&& (k.threads h).allocatedSignals)) &&&
       (k.threads h).waitingSignals ≠ 0 →
     (isrTimerA k).active = h :: k.active.erase h) := by
  have hne : (k.threads h).timeoutOffset ≠ 0 := by omega
  simp only [isrTimerA, hlist, List.head?_cons]
  rw [if_pos hne]
  simp only [List.length_cons, List.length_nil, isrADrain, List.head?_cons]
  rw [if_pos (by simp [updThr, hoff])]
  simp only [offsetRemoveGo, if_pos rfl]
  refine ⟨?_, ?_, ?_, ?_⟩
  · rw [signalThread_timeoutList_of_offset_zero]
    all_goals simp [updThr, hoff]
  · rw [signalThread_threads_of_offset_zero]
    all_goals simp [updThr, hoff]
  · rw [signalThread_threads_of_offset_zero]
    all_goals simp [updThr, hoff]
  · intro h1 h2 h3
    rw [signalThread_active_wake]
    · simpa using h1
    · simpa [updThr] using h2
    · simpa [updThr] using h3

theorem isrTimerA_drain_cons (k : Kernel) (h s : Nat) (rest2 : List Nat)
    (hlist : k.timeoutList = h :: s :: rest2)
    (hoff : (k.threads h).timeoutOffset = 1)
    (hs : h ≠ s)
    (hnext : (k.threads s).timeoutOffset ≠ 0) :
    (isrTimerA k).timeoutList = s :: rest2 ∧
    ((isrTimerA k).threads h).currentSignals =
      (k.threads h).currentSignals |||
        (SIG_TIMEOUT &&& (k.threads h).allocatedSignals) ∧
    ((isrTimerA k).threads h).timeoutOffset = 0 ∧
    (k.currentThread ≠ some h →
     (k.threads h).currentSignals &&& (k.threads h).waitingSignals = 0 →
     ((k.threads h).currentSignals |||
        (SIG_TIMEOUT &&& (k.threads h).allocatedSignals)) &&&
       (k.threads h).waitingSignals ≠ 0 →
     (isrTimerA k).active = h :: k.active.erase h) := by
  have hne : (k.threads h).timeoutOffset ≠ 0 := by omega
  simp only [isrTimerA, hlist, List.head?_cons]
  rw [if_pos hne]
  simp only [List.length_cons]
  rw [isrADrain_succ_step _ _ h]
  · rw [isrADrain_stop]
    · refine ⟨?_, ?_, ?_, ?_⟩
      · rw [signalThread_timeoutList_of_offset_zero]
        all_goals simp [offsetRemoveGo, updThr, hoff, hs]
      · rw [signalThread_threads_of_offset_zero]
        all_goals simp [offsetRemoveGo, updThr, hoff, hs]
      · rw [signalThread_threads_of_offset_zero]
        all_goals simp [offsetRemoveGo, updThr, hoff, hs]
      · intro h1 h2 h3
        rw [signalThread_active_wake]
        · simpa using h1
        · simpa [offsetRemoveGo, updThr, hs] using h2
        · simpa [offsetRemoveGo, updThr, hs] using h3
    · intro h2 hh2
      rw [signalThread_timeoutList_of_offset_zero] at hh2
      · simp [offsetRemoveGo, updThr, Ne.symm hs] at hh2
        subst hh2
        rw [signalThread_threads_of_offset_zero]
        · simp [offsetRemoveGo, updThr, hs, Ne.symm hs, hoff]
          exact hnext
        · simp [offsetRemoveGo, updThr, hoff, hs, Ne.symm hs]
      · simp [offsetRemoveGo, updThr, hoff, hs, Ne.symm hs]
  · simp
  · simp [updThr, hoff]

theorem isrTimerA_ms (k : Kernel) :
    (isrTimerA k).milliseconds = (k.milliseconds + 1) % 4294967296 := by
  simp only [isrTimerA]
  split
  · rfl
  · split
    · rw [isrADrain_ms]
    · rw [isrADrain_ms]

theorem isrTimerA_empty (k : Kernel) (h : k.timeoutList = []) :
    isrTimerA k =
      { k with milliseconds := (k.milliseconds + 1) % 4294967296 } := by
  simp [isrTimerA, h]

/-- C7: each run of the millisecond tick ISR increments the 32-bit
millisecond counter by one; when the timeout-list head exists with a
non-zero offset that offset is decremented by one (with no other state
change when it stays non-zero); and when the decrement exhausts the
head's offset, the head is removed from the timeout list, signalled
with `TIMEOUT` (waking it to the head of the active list when that
signal is waited on); the drain continues while heads with offset 0
remain — all simultaneously-expiring sleepers are removed and signalled
in one run — and stops at the first head with a non-zero offset. -/
theorem c7_timer_tick_isr (k : Kernel) :
    ((isrTimerA k).milliseconds = (k.milliseconds + 1) % 4294967296) ∧
    (k.timeoutList = [] →
       isrTimerA k =
         { k with milliseconds := (k.milliseconds + 1) % 4294967296 }) ∧
    (∀ h rest, k.timeoutList = h :: rest →
       2 ≤ (k.threads h).timeoutOffset →
       (isrTimerA k).timeoutList = k.timeoutList ∧
       ((isrTimerA k).threads h).timeoutOffset =
         (k.threads h).timeoutOffset - 1 ∧
       ((isrTimerA k).threads h).currentSignals =
         (k.threads h).currentSignals ∧
       (∀ j, j ≠ h → (isrTimerA k).threads j = k.threads j) ∧
       (isrTimerA k).active = k.active) ∧
    (∀ h rest, k.timeoutList = h :: rest →
       (k.threads h).timeoutOffset = 1 → h ∉ rest →
       (∀ h2, rest.head? = some h2 → (k.threads h2).timeoutOffset ≠ 0) →
       (isrTimerA k).timeoutList = rest ∧
       ((isrTimerA k).threads h).currentSignals =
         (k.threads h).currentSignals |||
           (SIG_TIMEOUT &&& (k.threads h).allocatedSignals) ∧
       ((isrTimerA k).threads h).timeoutOffset = 0 ∧
       (k.currentThread ≠ some h →
        (k.threads h).currentSignals &&& (k.threads h).waitingSignals
          = 0 →
        ((k.threads h).currentSignals |||
           (SIG_TIMEOUT &&& (k.threads h).allocatedSignals)) &&&
          (k.threads h).waitingSignals ≠ 0 →
        (isrTimerA k).active = h :: k.active.erase h)) ∧
    (∀ h zs rest, k.timeoutList = h :: zs ++ rest →
       (h :: zs ++ rest).Nodup →
       (k.threads h).timeoutOffset ≤ 1 →
       (∀ z, z ∈ zs → (k.threads z).timeoutOffset = 0) →
       (∀ h2, rest.head? = some h2 → (k.threads h2).timeoutOffset ≠ 0) →
       (isrTimerA k).timeoutList = rest ∧
       (∀ z, z ∈ h :: zs →
         ((isrTimerA k).threads z).currentSignals =
           (k.threads z).currentSignals |||
             (SIG_TIMEOUT &&& (k.threads z).allocatedSignals) ∧
         ((isrTimerA k).threads z).timeoutOffset = 0) ∧
       (∀ j, j ∉ h :: zs → (isrTimerA k).threads j = k.threads j)) := by
  refine ⟨isrTimerA_ms k, fun h => isrTimerA_empty k h, ?_, ?_, ?_⟩
  · intro h rest hlist hoff
    exact isrTimerA_decrement_only k h rest hlist hoff
  · intro h rest hlist hoff hnotin hnext
    cases rest with
    | nil => exact isrTimerA_drain_single k h hlist hoff
    | cons s rest2 =>
      have hs : h ≠ s := by
        intro he
        subst he
        exact hnotin (List.mem_cons_self h rest2)
      exact isrTimerA_drain_cons k h s rest2 hlist hoff hs (hnext s rfl)
  · intro h zs rest hlist hnodup hoff hz hrest
    rw [isrTimerA_eq_drain k h (zs ++ rest) hlist]
    have hhzs : h ∉ zs ++ rest :=
      (List.nodup_cons.mp (by simpa using hnodup)).1
    have hKth : ∀ j, (decHead (tickKernel k) h).threads j =
        (if j = h then { k.threads h with timeoutOffset := 0 }
         else k.threads j) := by
      intro j
      simp only [decHead, tickKernel]
      split
      · rename_i hne
        simp only [updThr]
        split
        · rename_i hj
          subst hj
          have hone : (k.threads j).timeoutOffset - 1 = 0 := by omega
          rw [hone]
        · rfl
      · rename_i hne
        split
        · rename_i hj
          subst hj
          have h00 : (k.threads j).timeoutOffset = 0 := by omega
          rw [← h00]
        · rfl
    have hKlist : (decHead (tickKernel k) h).timeoutList =
        k.timeoutList := by
      simp only [decHead, tickKernel]
      split <;> rfl
    have hfuel : (h :: (zs ++ rest)).length =
        (decHead (tickKernel k) h).timeoutList.length := by
      rw [hKlist, hlist]
      rfl
    rw [hfuel]
    have hd := isrADrain_drains (h :: zs) (decHead (tickKernel k) h) rest
      (by rw [hKlist, hlist])
      (by simpa using hnodup)
      (by
        intro z hzz
        rcases List.mem_cons.mp hzz with hzh | hzz2
        · subst hzh
          rw [hKth z, if_pos rfl]
        · have hne : z ≠ h := by
            intro he
            subst he
            exact hhzs (List.mem_append_left _ hzz2)
          rw [hKth z, if_neg hne]
          exact hz z hzz2)
      (by
        intro h2 hh2
        have hmem : h2 ∈ rest := by
          cases rest with
          | nil => simp at hh2
          | cons r rs =>
            simp only [List.head?_cons, Option.some.injEq] at hh2
            subst hh2
            simp
        have hne : h2 ≠ h := by
          intro he
          subst he
          exact hhzs (List.mem_append_right _ hmem)
        rw [hKth h2, if_neg hne]
        exact hrest h2 hh2)
    obtain ⟨hL, hZ, hJ⟩ := hd
    refine ⟨hL, ?_, ?_⟩
    · intro z hzz
      have hZz := hZ z hzz
      rcases List.mem_cons.mp hzz with hzh | hzz2
      · subst hzh
        rw [hKth z, if_pos rfl] at hZz
        exact hZz
      · have hne : z ≠ h := by
          intro he
          subst he
          exact hhzs (List.mem_append_left _ hzz2)
        rw [hKth z, if_neg hne] at hZz
        exact hZz
    · intro j hj
      have hne : j ≠ h := by
        intro he
        subst he
        exact hj (List.mem_cons_self _ _)
      have hjzs : j ∉ h :: zs := hj
      rw [hJ j hj, hKth j, if_neg hne]

/-- C7 witness: on `kernelW7` the tick expires thread 5's timeout: it
leaves the timeout list, receives `TIMEOUT` (mask 4), and is moved to
the head of the active list; the counter advances to 42.  On
`kernelW7b` the two simultaneously-expiring sleepers 5 and 6 are both
drained and signalled in the same run. -/
theorem c7_witness :
    (isrTimerA kernelW7).milliseconds = 42 ∧
    (isrTimerA kernelW7).timeoutList = [] ∧
    ((isrTimerA kernelW7).threads 5).currentSignals = 4 ∧
    ((isrTimerA kernelW7).threads 5).timeoutOffset = 0 ∧
    (isrTimerA kernelW7).active = [5] ∧
    (isrTimerA kernelW7b).timeoutList = [] ∧
    ((isrTimerA kernelW7b).threads 5).currentSignals = 4 ∧
    ((isrTimerA kernelW7b).threads 6).currentSignals = 4 := by
  have h := (c7_timer_tick_isr kernelW7).2.2.2.1 5 [] rfl (by decide)
    (by decide) (by intro h2 hh2; simp at hh2)
  have hb := (c7_timer_tick_isr kernelW7b).2.2.2.2 5 [6] [] rfl
    (by decide) (by decide)
    (by intro z hzz; simp at hzz; subst hzz; decide)
    (by intro h2 hh2; simp at hh2)
  refine ⟨?_, h.1, ?_, h.2.2.1, ?_, hb.1, ?_, ?_⟩
  · rw [(c7_timer_tick_isr kernelW7).1]
    decide
  · rw [h.2.1]
    decide
  · have ha := h.2.2.2 (by decide) (by decide) (by decide)
    rw [ha]
    decide
  · rw [(hb.2.1 5 (by simp)).1]
    decide
  · rw [(hb.2.1 6 (by simp)).1]
    decide

theorem buScan_succ (mm : List Bool) (n s : Nat) :
    buScan mm n (s + 1) = ffpBody mm n (buScan mm n s) s := by
  unfold buScan
  rw [List.range_succ, List.map_append, List.foldl_append]
  simp [stratPage, getPageForSearchStep_BottomUp]

theorem tdScan_succ (mm : List Bool) (n s : Nat) :
    tdScan mm n (s + 1) =
      ffpBody mm n (tdScan mm n s) (mm.length - (s + 1)) := by
  unfold tdScan
  rw [List.range_succ, List.map_append, List.foldl_append]
  simp [stratPage, getPageForSearchStep_TopDown]

theorem findFreePages_bu (mm : List Bool) (n : Nat) :
    findFreePages mm n .bottomUp = ffpFinish n (buScan mm n mm.length) :=
  rfl

theorem findFreePages_td (mm : List Bool) (n : Nat) :
    findFreePages mm n .topDown = ffpFinish n (tdScan mm n mm.length) :=
  rfl

theorem ffpBody_running (mm : List Bool) (n : Nat) (sp : Option Nat)
    (c curPage : Nat) (h65 : curPage ≠ 65535) :
    ffpBody mm n (.running sp c) curPage =
      (if isPageAvailable mm curPage then
        (if c + 1 = n then
          FfpState.broke (some (min (sp.getD curPage) curPage)) (c + 1)
         else .running (some (sp.getD curPage)) (c + 1))
       else .running none 0) := by
  simp [ffpBody, h65]

theorem buLoop (mm : List Bool) (n : Nat) (hn : 1 ≤ n)
    (hN : mm.length ≤ 32768) :
    ∀ s, s ≤ mm.length →
      (∃ b, b + n ≤ s ∧ runAt mm b n ∧
        (∀ b2, runAt mm b2 n → b ≤ b2) ∧
        buScan mm n s = .broke (some b) n) ∨
      ((∀ b, b + n ≤ s → ¬ runAt mm b n) ∧
       ∃ c, c < n ∧ c ≤ s ∧
         (∀ i, i < c → isPageAvailable mm (s - 1 - i) = true) ∧
         (c = s ∨ isPageAvailable mm (s - c - 1) = false) ∧
         buScan mm n s =
           .running (if c = 0 then none else some (s - c)) c) := by
  intro s
  induction s with
  | zero =>
    intro hs
    right
    refine ⟨fun b hb hrun => by omega, 0, by omega, by omega,
      fun i hi => absurd hi (by omega), Or.inl rfl, rfl⟩
  | succ s ih =>
    intro hs1
    have hs : s ≤ mm.length := by omega
    have h65 : s ≠ 65535 := by omega
    rcases ih hs with ⟨b, hbs, hrun, hmin, hst⟩ |
      ⟨hnorun, c, hcn, hcs, hfree, hbdry, hst⟩
    · left
      exact ⟨b, by omega, hrun, hmin, by rw [buScan_succ, hst]; rfl⟩
    · rw [buScan_succ, hst, ffpBody_running mm n _ c s h65]
      cases hav : isPageAvailable mm s with
      | false =>
        rw [if_neg (by simp [hav])]
        right
        constructor
        · intro b hb hrunb
          rcases Nat.lt_or_ge (b + n) (s + 1) with h1 | h1
          · exact hnorun b (by omega) hrunb
          · have hbn : b + n = s + 1 := by omega
            have hfr := hrunb.2 (n - 1) (by omega)
            have heq : b + (n - 1) = s := by omega
            rw [heq, hav] at hfr
            simp at hfr
        · refine ⟨0, by omega, by omega,
            fun i hi => absurd hi (by omega), Or.inr ?_, by simp⟩
          have heq : s + 1 - 0 - 1 = s := by omega
          rw [heq]
          exact hav
      | true =>
        rw [if_pos (by simp [hav])]
        have hsp : ((if c = 0 then none else some (s - c)) :
            Option Nat).getD s = s - c := by
          by_cases hc0 : c = 0 <;> simp [hc0]
        rw [hsp]
        by_cases hcn1 : c + 1 = n
        · rw [if_pos hcn1]
          left
          rw [min_eq_left (by omega)]
          refine ⟨s - c, by omega, ⟨by omega, ?_⟩, ?_, by rw [hcn1]⟩
          · intro i hi
            rcases Nat.lt_or_ge i c with hic | hic
            · have hj := hfree (c - 1 - i) (by omega)
              have heq : s - 1 - (c - 1 - i) = s - c + i := by omega
              rw [heq] at hj
              exact hj
            · have hieq : i = c := by omega
              subst hieq
              have heq : s - i + i = s := by omega
              rw [heq]
              exact hav
          · intro b2 hb2
            by_contra hlt
            push_neg at hlt
            exact hnorun b2 (by omega) hb2
        · rw [if_neg hcn1]
          right
          constructor
          · intro b hb hrunb
            rcases Nat.lt_or_ge (b + n) (s + 1) with h1 | h1
            · exact hnorun b (by omega) hrunb
            · have hbn : b + n = s + 1 := by omega
              have hcn2 : c + 2 ≤ n := by omega
              rcases hbdry with hceq | hbad
              · omega
              · have hfr := hrunb.2 (s - c - 1 - b) (by omega)
                have heq : b + (s - c - 1 - b) = s - c - 1 := by omega
                rw [heq] at hfr
                rw [hfr] at hbad
                simp at hbad
          · refine ⟨c + 1, by omega, by omega, ?_, ?_, ?_⟩
            · intro i hi
              by_cases hi0 : i = 0
              · subst hi0
                have heq : s + 1 - 1 - 0 = s := by omega
                rw [heq]
                exact hav
              · have hj := hfree (i - 1) (by omega)
                have heq : s + 1 - 1 - i = s - 1 - (i - 1) := by omega
                rw [heq]
                exact hj
            · rcases hbdry with hceq | hbad
              · left
                omega
              · right
                have heq : s + 1 - (c + 1) - 1 = s - c - 1 := by omega
                rw [heq]
                exact hbad
            · have heq : s + 1 - (c + 1) = s - c := by omega
              rw [if_neg (by omega), heq]

theorem tdLoop (mm : List Bool) (n : Nat) (hn : 1 ≤ n)
    (hN : mm.length ≤ 32768) :
    ∀ s, s ≤ mm.length →
      (∃ b, mm.length - s ≤ b ∧ runAt mm b n ∧
        (∀ b2, runAt mm b2 n → b2 ≤ b) ∧
        tdScan mm n s = .broke (some b) n) ∨
      ((∀ b, mm.length - s ≤ b → ¬ runAt mm b n) ∧
       ∃ c, c < n ∧ c ≤ s ∧
         (∀ i, i < c →
           isPageAvailable mm (mm.length - s + i) = true) ∧
         (c = s ∨ isPageAvailable mm (mm.length - s + c) = false) ∧
         tdScan mm n s =
           .running
             (if c = 0 then none else some (mm.length - s + c - 1)) c) := by
  intro s
  induction s with
  | zero =>
    intro hs
    right
    refine ⟨fun b hb hrun => by have := hrun.1; omega, 0, by omega,
      by omega, fun i hi => absurd hi (by omega), Or.inl rfl, rfl⟩
  | succ s ih =>
    intro hs1
    have hs : s ≤ mm.length := by omega
    have h65 : mm.length - (s + 1) ≠ 65535 := by omega
    rcases ih hs with ⟨b, hbs, hrun, hmax, hst⟩ |
      ⟨hnorun, c, hcn, hcs, hfree, hbdry, hst⟩
    · left
      exact ⟨b, by omega, hrun, hmax, by rw [tdScan_succ, hst]; rfl⟩
    · rw [tdScan_succ, hst,
        ffpBody_running mm n _ c (mm.length - (s + 1)) h65]
      cases hav : isPageAvailable mm (mm.length - (s + 1)) with
      | false =>
        rw [if_neg (by simp [hav])]
        right
        constructor
        · intro b hb hrunb
          rcases Nat.lt_or_ge b (mm.length - s) with h1 | h1
          · have hbeq : b = mm.length - (s + 1) := by omega
            have hfr := hrunb.2 0 (by omega)
            rw [Nat.add_zero, hbeq, hav] at hfr
            simp at hfr
          · exact hnorun b h1 hrunb
        · refine ⟨0, by omega, by omega,
            fun i hi => absurd hi (by omega), Or.inr ?_, by simp⟩
          rw [Nat.add_zero]
          exact hav
      | true =>
        rw [if_pos (by simp [hav])]
        have hsp : ((if c = 0 then none
              else some (mm.length - s + c - 1)) :
            Option Nat).getD (mm.length - (s + 1)) =
            mm.length - (s + 1) + c := by
          by_cases hc0 : c = 0 <;> simp [hc0] <;> omega
        rw [hsp]
        by_cases hcn1 : c + 1 = n
        · rw [if_pos hcn1]
          left
          rw [min_eq_right (by omega)]
          refine ⟨mm.length - (s + 1), by omega, ⟨by omega, ?_⟩, ?_,
            by rw [hcn1]⟩
          · intro i hi
            by_cases hi0 : i = 0
            · subst hi0
              rw [Nat.add_zero]
              exact hav
            · have hj := hfree (i - 1) (by omega)
              have heq : mm.length - (s + 1) + i =
                  mm.length - s + (i - 1) := by omega
              rw [heq]
              exact hj
          · intro b2 hb2
            by_contra hlt
            push_neg at hlt
            exact hnorun b2 (by omega) hb2
        · rw [if_neg hcn1]
          right
          constructor
          · intro b hb hrunb
            rcases Nat.lt_or_ge b (mm.length - s) with h1 | h1
            · have hbeq : b = mm.length - (s + 1) := by omega
              have hcn2 : c + 2 ≤ n := by omega
              rcases hbdry with hceq | hbad
              · have := hrunb.1
                omega
              · have hfr := hrunb.2 (c + 1) (by omega)
                have heq : b + (c + 1) = mm.length - s + c := by omega
                rw [heq, hbad] at hfr
                simp at hfr
            · exact hnorun b h1 hrunb
          · refine ⟨c + 1, by omega, by omega, ?_, ?_, ?_⟩
            · intro i hi
              by_cases hi0 : i = 0
              · subst hi0
                rw [Nat.add_zero]
                exact hav
              · have hj := hfree (i - 1) (by omega)
                have heq : mm.length - (s + 1) + i =
                    mm.length - s + (i - 1) := by omega
                rw [heq]
                exact hj
            · rcases hbdry with hceq | hbad
              · left
                omega
              · right
                have heq : mm.length - (s + 1) + (c + 1) =
                    mm.length - s + c := by omega
                rw [heq]
                exact hbad
            · rw [if_neg (by omega)]
              have heq : mm.length - (s + 1) + (c + 1) - 1 =
                  mm.length - (s + 1) + c := by omega
              rw [heq]

/-- C3: `findFreePages(n, strategy)` returns the base (lowest page) of a
run of `n` contiguous free pages — the lowest such run for BottomUp, the
highest for TopDown (the base still being the lowest page of that run,
so the region is ascending) — and returns `-1` (here `none`) exactly
when no such run exists; on an all-free bitmap of `N ≥ 1` pages a
one-page TopDown request returns `N-1` and a one-page BottomUp request
returns 0.  The page count is bounded by 32768, the range in which the
embedding of the `int16_t`/`uint16_t` arithmetic is exact. -/
theorem c3_findFreePages (mm : List Bool) (n : Nat) (hn : 1 ≤ n)
    (hN : mm.length ≤ 32768) :
    (findFreePages mm n .bottomUp = none ↔ ∀ b, ¬ runAt mm b n) ∧
    (∀ b, findFreePages mm n .bottomUp = some b →
       runAt mm b n ∧ ∀ b2, runAt mm b2 n → b ≤ b2) ∧
    (findFreePages mm n .topDown = none ↔ ∀ b, ¬ runAt mm b n) ∧
    (∀ b, findFreePages mm n .topDown = some b →
       runAt mm b n ∧ ∀ b2, runAt mm b2 n → b2 ≤ b) ∧
    (n = 1 → (∀ p, p < mm.length → isPageAvailable mm p = true) →
     1 ≤ mm.length →
     findFreePages mm n .topDown = some (mm.length - 1) ∧
     findFreePages mm n .bottomUp = some 0) := by
  have hbuEq : (findFreePages mm n .bottomUp = none ∧
        ∀ b, ¬ runAt mm b n) ∨
      (∃ b, findFreePages mm n .bottomUp = some b ∧ runAt mm b n ∧
        ∀ b2, runAt mm b2 n → b ≤ b2) := by
    rcases buLoop mm n hn hN mm.length le_rfl with
      ⟨b, hbs, hrun, hmin, hst⟩ | ⟨hnorun, c, hcn, hcs, hf, hbd, hst⟩
    · right
      refine ⟨b, ?_, hrun, hmin⟩
      rw [findFreePages_bu, hst]
      simp [ffpFinish]
    · left
      constructor
      · rw [findFreePages_bu, hst]
        simp [ffpFinish, hcn]
      · intro b hr
        exact hnorun b hr.1 hr
  have htdEq : (findFreePages mm n .topDown = none ∧
        ∀ b, ¬ runAt mm b n) ∨
      (∃ b, findFreePages mm n .topDown = some b ∧ runAt mm b n ∧
        ∀ b2, runAt mm b2 n → b2 ≤ b) := by
    rcases tdLoop mm n hn hN mm.length le_rfl with
      ⟨b, hbs, hrun, hmax, hst⟩ | ⟨hnorun, c, hcn, hcs, hf, hbd, hst⟩
    · right
      refine ⟨b, ?_, hrun, hmax⟩
      rw [findFreePages_td, hst]
      simp [ffpFinish]
    · left
      constructor
      · rw [findFreePages_td, hst]
        simp [ffpFinish, hcn]
      · intro b hr
        exact hnorun b (by omega) hr
  refine ⟨?_, ?_, ?_, ?_, ?_⟩
  · constructor
    · intro hnone
      rcases hbuEq with ⟨heq, hno⟩ | ⟨b, hsome, hrun, hmin⟩
      · exact hno
      · rw [hsome] at hnone
        simp at hnone
    · intro hno
      rcases hbuEq with ⟨heq, hno2⟩ | ⟨b, hsome, hrun, hmin⟩
      · exact heq
      · exact absurd hrun (hno b)
  · intro b hb
    rcases hbuEq with ⟨heq, hno⟩ | ⟨b2, hsome, hrun, hmin⟩
    · rw [heq] at hb
      simp at hb
    · rw [hsome] at hb
      simp only [Option.some.injEq] at hb
      subst hb
      exact ⟨hrun, hmin⟩
  · constructor
    · intro hnone
      rcases htdEq with ⟨heq, hno⟩ | ⟨b, hsome, hrun, hmax⟩
      · exact hno
      · rw [hsome] at hnone
        simp at hnone
    · intro hno
      rcases htdEq with ⟨heq, hno2⟩ | ⟨b, hsome, hrun, hmax⟩
      · exact heq
      · exact absurd hrun (hno b)
  · intro b hb
    rcases htdEq with ⟨heq, hno⟩ | ⟨b2, hsome, hrun, hmax⟩
    · rw [heq] at hb
      simp at hb
    · rw [hsome] at hb
      simp only [Option.some.injEq] at hb
      subst hb
      exact ⟨hrun, hmax⟩
  · intro hn1 hall hone
    subst hn1
    have hrunTop : runAt mm (mm.length - 1) 1 := by
      refine ⟨by omega, ?_⟩
      intro i hi
      have hi0 : i = 0 := by omega
      subst hi0
      rw [Nat.add_zero]
      exact hall _ (by omega)
    have hrunBot : runAt mm 0 1 := by
      refine ⟨by omega, ?_⟩
      intro i hi
      have hi0 : i = 0 := by omega
      subst hi0
      exact hall 0 (by omega)
    constructor
    · rcases htdEq with ⟨heq, hno⟩ | ⟨b, hsome, hrun, hmax⟩
      · exact absurd hrunTop (hno _)
      · have hb : b = mm.length - 1 := by
          have h1 := hmax _ hrunTop
          have h2 := hrun.1
          omega
        rw [hsome, hb]
    · rcases hbuEq with ⟨heq, hno⟩ | ⟨b, hsome, hrun, hmin⟩
      · exact absurd hrunBot (hno _)
      · have hb : b = 0 := by
          have h1 := hmin _ hrunBot
          omega
        rw [hsome, hb]

/-- C3 witness: a three-page all-free bitmap gives base 2 for a
one-page TopDown request and base 0 for a one-page BottomUp request. -/
theorem c3_witness :
    findFreePages [false, false, false] 1 .topDown = some 2 ∧
    findFreePages [false, false, false] 1 .bottomUp = some 0 := by
  have h := (c3_findFreePages [false, false, false] 1 (by omega)
    (by simp)).2.2.2.2 rfl (by decide) (by simp)
  exact ⟨by simpa using h.1, by simpa using h.2⟩

end ZeroOS
